import Mathlib

/-!
Verification of the quest-game backend (team formation, route assignment,
checkpoint progression, proof moderation, and the admin notification relay).

The Python source is embedded shallowly:
* SQLAlchemy rows become Lean structures; the database session becomes an
  explicit `DB` record of row lists.
* Timestamps (`datetime`) are modelled as `Nat` instants; `now_utc()` becomes
  an explicit `now : Nat` argument.
* Nullable columns become `Option`; Python falsiness of `0`/`""`/`None` is
  modelled by explicit helpers below.
* `Query.one_or_none` / `Query.first` on a uniquely-keyed filter are modelled
  by `List.find?`; `order_by(id)` is modelled by an insertion sort on the key.
* Digit characters are modelled as ASCII `0`-`9` (`Char.isDigit`).
Payload-only columns that no embedded operation reads (riddle texts, colors,
activity flags) are elided.
-/

/-- Python truthiness for an optional string: `a or b` keeps `a` unless it is
`None` or the empty string. -/
def pyOrStr (a : Option String) (b : String) : String :=
  match a with
  | some s => if s = "" then b else s
  | none => b

/-- Python truthiness for an optional string result: `a or b` with optional
fallback, as used for `reason or s.reject_reason`. -/
def pyOrOptStr (a b : Option String) : Option String :=
  match a with
  | some s => if s = "" then b else some s
  | none => b

/-- Python `n or d` for an integer `n` (`0` is falsy), used by
`int(team.current_order_num or 1)`. -/
def pyOrNat (n d : Nat) : Nat :=
  if n = 0 then d else n

/-- Decimal value of a digit string, used to model Python `int(s)` on an
all-digit string. -/
def digitsVal (l : List Char) : Nat :=
  l.foldl (fun a c => a * 10 + (c.toNat - 48)) 0

-- ========================= data model (models/__init__.py) ==================

/-- Row of `routes` (payload columns elided). -/
structure Route where
  id : Nat
  code : String
  deriving DecidableEq

/-- Row of `checkpoints` (riddle/title payload elided). -/
structure Checkpoint where
  id : Nat
  route_id : Nat
  order_num : Nat
  deriving DecidableEq

/-- Row of `teams`. `current_order_num` is NOT NULL with server default 1;
`started_at`/`finished_at` are nullable timestamps. -/
structure Team where
  id : Nat
  name : String
  is_locked : Bool
  route_id : Option Nat
  current_order_num : Nat
  can_rename : Bool
  started_at : Option Nat
  finished_at : Option Nat
  deriving DecidableEq

/-- Row of `users` (name columns elided). -/
structure User where
  id : Nat
  tg_id : Option String
  phone : Option String
  deriving DecidableEq

/-- Row of `team_members`; `role` is a nullable free-text column. -/
structure TeamMember where
  id : Nat
  team_id : Nat
  user_id : Nat
  role : Option String
  deriving DecidableEq

/-- Row of `proofs`. `photo_file_id` is the opaque media reference;
`created_at`/`updated_at` come from `TimestampMixin`. -/
structure Proof where
  id : Nat
  team_id : Nat
  route_id : Nat
  checkpoint_id : Nat
  photo_file_id : String
  status : String
  submitted_by_user_id : Option Nat
  judged_by : Option Nat
  judged_at : Option Nat
  comment : Option String
  created_at : Nat
  updated_at : Nat
  deriving DecidableEq

/-- Row of `submissions` (legacy moderation stream). -/
structure Submission where
  id : Nat
  user_id : Option Nat
  team_id : Option Nat
  kind : String
  url : Option String
  canonical_url : Option String
  tg_file_id : Option String
  status : String
  reject_reason : Option String
  reviewed_at : Option Nat
  reviewed_by_tg : Option Nat
  created_at : Nat
  deriving DecidableEq

/-- The relational store: one list of rows per table. -/
structure DB where
  users : List User
  teams : List Team
  members : List TeamMember
  routes : List Route
  checkpoints : List Checkpoint
  proofs : List Proof
  submissions : List Submission
  deriving DecidableEq

-- ========================= generic row helpers ==============================

/-- Update-in-place of the team row with the given id (ORM object mutation
followed by commit). -/
def updateTeamRow (teams : List Team) (i : Nat) (t' : Team) : List Team :=
  teams.map (fun t => if t.id = i then t' else t)

/-- Update-in-place of the proof row with the given id. -/
def updateProofRow (proofs : List Proof) (i : Nat) (p' : Proof) : List Proof :=
  proofs.map (fun p => if p.id = i then p' else p)

/-- Update-in-place of the submission row with the given id. -/
def updateSubmissionRow (subs : List Submission) (i : Nat) (s' : Submission) :
    List Submission :=
  subs.map (fun s => if s.id = i then s' else s)

/-- Autoincrement primary key for a fresh proof row. -/
def nextProofId (proofs : List Proof) : Nat :=
  (proofs.map (·.id)).foldr max 0 + 1

/-- Autoincrement primary key for a fresh team row. -/
def nextTeamId (teams : List Team) : Nat :=
  (teams.map (·.id)).foldr max 0 + 1

-- ========================= helpers from api.py ==============================

/-- Characters kept by `re.sub(r"[^\d+]", "", s)` (digits and plus). -/
def phoneChar (c : Char) : Bool :=
  c.isDigit || c == '+'

/-- `norm_phone` from api.py: strip to digits/plus, rewrite a leading `8` of
an 11-character result to `+7`, and prefix an 11-digit result starting with
`7` by `+`.  The two rewrites are applied in source order (the second tests
the result of the first). -/
def norm_phone (s : String) : String :=
  if s = "" then ""
  else
    let l := s.toList.filter phoneChar
    let l1 := if l.length = 11 ∧ l.headD ' ' = '8' then '+' :: '7' :: l.tail else l
    let l2 :=
      if l1 ≠ [] ∧ l1.all Char.isDigit ∧ l1.length = 11 ∧ l1.headD ' ' = '7' then
        '+' :: l1
      else l1
    ⟨l2⟩

/-- Python `str.upper()` on the ASCII role strings, character by character. -/
def pyUpper (s : String) : String :=
  ⟨s.toList.map Char.toUpper⟩

/-- `_team_member_count`. -/
def teamMemberCount (db : DB) (tid : Nat) : Nat :=
  (db.members.filter (fun m => m.team_id == tid)).length

/-- `_team_is_full` (capacity `sz` models the `TEAM_SIZE` env value). -/
def teamIsFull (db : DB) (sz tid : Nat) : Bool :=
  teamMemberCount db tid ≥ sz

/-- `_route_total_checkpoints` (`route_id` falsy, i.e. absent, gives 0). -/
def routeTotalCheckpoints (db : DB) (rid : Option Nat) : Nat :=
  match rid with
  | none => 0
  | some r => (db.checkpoints.filter (fun c => c.route_id == r)).length

/-- `_approved_count_cp`. -/
def approvedCountCp (db : DB) (tid : Nat) : Nat :=
  (db.proofs.filter (fun p => p.team_id == tid && p.status == "APPROVED")).length

/-- `_current_checkpoint`: the checkpoint of the bound route whose order
number equals the team pointer; `None` when route or pointer is falsy. -/
def currentCheckpoint (db : DB) (team : Team) : Option Checkpoint :=
  match team.route_id with
  | none => none
  | some rid =>
    if team.current_order_num = 0 then none
    else
      db.checkpoints.find?
        (fun c => c.route_id == rid && c.order_num == team.current_order_num)

/-- `_is_last_checkpoint`: the route has checkpoints and the team pointer has
reached (or passed) the last order number. -/
def isLastCheckpoint (db : DB) (team : Team) : Bool :=
  let total := routeTotalCheckpoints db team.route_id
  total ≠ 0 && team.current_order_num ≥ total

-- ========================= sorted scans (order_by id asc) ===================

/-- Ascending-id order on routes, for `order_by(Route.id.asc())`. -/
def routeLe (a b : Route) : Prop := a.id ≤ b.id

instance : DecidableRel routeLe := fun a b => Nat.decLe a.id b.id

instance : IsTotal Route routeLe := ⟨fun a b => Nat.le_total a.id b.id⟩

instance : IsTrans Route routeLe := ⟨fun _ _ _ => Nat.le_trans⟩

/-- Ascending-id order on teams, for `order_by(Team.id.asc())`. -/
def teamLe (a b : Team) : Prop := a.id ≤ b.id

instance : DecidableRel teamLe := fun a b => Nat.decLe a.id b.id

instance : IsTotal Team teamLe := ⟨fun a b => Nat.le_total a.id b.id⟩

instance : IsTrans Team teamLe := ⟨fun _ _ _ => Nat.le_trans⟩

/-- `_routes_with_checkpoints`: routes in ascending id order that have at
least one checkpoint. -/
def routesWithCheckpoints (db : DB) : List Route :=
  (List.insertionSort routeLe db.routes).filter
    (fun r => routeTotalCheckpoints db (some r.id) > 0)

/-- Number of teams currently bound to the given route. -/
def teamsOnRoute (db : DB) (rid : Nat) : Nat :=
  (db.teams.filter (fun t => t.route_id == some rid)).length

/-- Python `min(xs, key=k)`: scan keeping the current best, replacing it only
on a strictly smaller key, so the first minimum wins. -/
def pyMinBy {α : Type} (key : α → Nat) : α → List α → α
  | best, [] => best
  | best, x :: xs => if key x < key best then pyMinBy key x xs else pyMinBy key best xs

/-- Outcome of `_auto_assign_route_if_needed` is the (possibly updated)
database plus the boolean the helper returns. -/
def autoAssignRouteIfNeeded (db : DB) (team : Team) : DB × Bool :=
  match team.route_id with
  | some _ => (db, true)
  | none =>
    match routesWithCheckpoints db with
    | [] => (db, false)
    | r :: rs =>
      let chosen := pyMinBy (fun r => teamsOnRoute db r.id) r rs
      let t' := { team with route_id := some chosen.id }
      ({ db with teams := updateTeamRow db.teams team.id t' }, true)

-- ========================= team formation (api.py) ==========================

/-- Default team name, Python `f"Команда №{n}"`. -/
def defaultTeamName (n : Nat) : String :=
  "Команда №" ++ toString n

/-- The `while True` scan of `_next_open_team` searching for a free default
name suffix, starting at `n`.  The fuel makes the scan structurally
recursive; `teams.length + 1` steps always suffice because at most
`teams.length` suffixes are taken (see `find_free_suffix_not_taken`). -/
def findFreeSuffix (names : List String) : Nat → Nat → Nat
  | n, 0 => n
  | n, fuel+1 =>
    if names.contains (defaultTeamName n) then findFreeSuffix names (n+1) fuel
    else n

/-- `_next_open_team`: first unlocked team (ascending id) with free capacity,
else a fresh team named with the first free default suffix at or above
`count(teams) + 1`. -/
def nextOpenTeam (db : DB) (sz : Nat) : DB × Team :=
  let cands := (List.insertionSort teamLe db.teams).filter (fun t => !t.is_locked)
  match cands.find? (fun t => teamMemberCount db t.id < sz) with
  | some t => (db, t)
  | none =>
    let base := db.teams.length + 1
    let names := db.teams.map (·.name)
    let k := findFreeSuffix names base (db.teams.length + 1)
    let team : Team :=
      { id := nextTeamId db.teams, name := defaultTeamName k, is_locked := false,
        route_id := none, current_order_num := 1, can_rename := true,
        started_at := none, finished_at := none }
    ({ db with teams := db.teams ++ [team] }, team)

-- ========================= proof moderation (api.py) ========================

/-- Result of `POST /game/photo` (`submit_photo_json`). -/
inductive SubmitOut
  | error (code : Nat) (detail : String)
  | routeFinished
  | alreadyQueued (proof_id : Nat)
  | requeued (proof_id : Nat)
  | queued (proof_id : Nat)
  deriving DecidableEq

/-- First `PENDING` proof row for the (team, checkpoint) pair (`Query.first`
on the filtered query). -/
def findPendingProof (db : DB) (tid cid : Nat) : Option Proof :=
  db.proofs.find?
    (fun p => p.team_id == tid && p.checkpoint_id == cid && p.status == "PENDING")

/-- Matching `REJECTED` row of greatest id (`order_by(Proof.id.desc()).first()`);
the scan keeps the later row on (impossible) id ties. -/
def latestRejectedProof (db : DB) (tid cid : Nat) : Option Proof :=
  (db.proofs.filter
      (fun p => p.team_id == tid && p.checkpoint_id == cid && p.status == "REJECTED")).foldl
    (fun acc p =>
      match acc with
      | none => some p
      | some q => if q.id > p.id then some q else some p)
    none

/-- The re-opened version of a `REJECTED` proof row: media reference and
submitter overwritten, judge fields and comment cleared, status back to
`PENDING`, `updated_at` bumped. -/
def reopenProof (r : Proof) (fid : String) (uid now : Nat) : Proof :=
  { r with
    status := "PENDING"
    photo_file_id := fid
    submitted_by_user_id := some uid
    judged_by := none
    judged_at := none
    comment := none
    updated_at := now }

/-- A fresh `PENDING` proof row for the checkpoint (timestamps from the
server defaults). -/
def freshProof (db : DB) (team : Team) (cid : Nat) (fid : String) (uid now : Nat) :
    Proof :=
  { id := nextProofId db.proofs, team_id := team.id,
    route_id := (team.route_id).getD 0, checkpoint_id := cid,
    photo_file_id := fid, status := "PENDING",
    submitted_by_user_id := some uid, judged_by := none, judged_at := none,
    comment := none, created_at := now, updated_at := now }

/-- `submit_photo_json` (`POST /game/photo`): resolve user, membership and
captain role, require a started team, then act by case on the existing proof
row for (team, current checkpoint). -/
def submit_photo_json (db : DB) (tg_id tg_file_id : String) (now : Nat) :
    DB × SubmitOut :=
  if tg_id = "" || tg_file_id = "" then
    (db, .error 400 "tg_id and tg_file_id are required")
  else
    match db.users.find? (fun u => u.tg_id == some tg_id) with
    | none => (db, .error 404 "User not found")
    | some user =>
      match db.members.find? (fun m => m.user_id == user.id) with
      | none => (db, .error 409 "User has no team")
      | some member =>
        if pyUpper (pyOrStr member.role "") ≠ "CAPTAIN" then
          (db, .error 403 "Only captain can submit")
        else
          match db.teams.find? (fun t => t.id == member.team_id) with
          | none => (db, .error 409 "Team has not started yet")
          | some team =>
            if team.started_at = none then
              (db, .error 409 "Team has not started yet")
            else
              match currentCheckpoint db team with
              | none => (db, .routeFinished)
              | some cp =>
                match findPendingProof db team.id cp.id with
                | some pending => (db, .alreadyQueued pending.id)
                | none =>
                  match latestRejectedProof db team.id cp.id with
                  | some rej =>
                    let r' := reopenProof rej tg_file_id user.id now
                    ({ db with proofs := updateProofRow db.proofs rej.id r' },
                     .requeued rej.id)
                  | none =>
                    let p := freshProof db team cp.id tg_file_id user.id now
                    ({ db with proofs := db.proofs ++ [p] }, .queued p.id)

/-- Result of the admin proof moderation endpoints (the success payload's
progress projection is read-only and elided). -/
inductive ModOut
  | notFound
  | alreadyProcessed
  | ok
  deriving DecidableEq

/-- `_advance_team_to_next_checkpoint`:
`current_order_num = int(current_order_num or 1) + 1`. -/
def advanceTeam (t : Team) : Team :=
  { t with current_order_num := pyOrNat t.current_order_num 1 + 1 }

/-- `admin_approve` (`POST /admin/proofs/{id}/approve`): no-op on a proof that
is not `PENDING`; otherwise judge it `APPROVED` and advance the owning team
(set `finished_at` once on the last checkpoint, else bump the pointer). -/
def admin_approve (db : DB) (proof_id now : Nat) : DB × ModOut :=
  match db.proofs.find? (fun p => p.id == proof_id) with
  | none => (db, .notFound)
  | some proof =>
    if proof.status ≠ "PENDING" then (db, .alreadyProcessed)
    else
      let p' := { proof with
        status := "APPROVED"
        judged_by := some 0
        judged_at := some now
        updated_at := now }
      let db1 := { db with proofs := updateProofRow db.proofs proof.id p' }
      match db1.teams.find? (fun t => t.id == proof.team_id) with
      | none => (db1, .ok)
      | some team =>
        if isLastCheckpoint db1 team then
          if team.finished_at = none then
            let t' := { team with finished_at := some now }
            ({ db1 with teams := updateTeamRow db1.teams team.id t' }, .ok)
          else (db1, .ok)
        else
          ({ db1 with teams := updateTeamRow db1.teams team.id (advanceTeam team) },
           .ok)

/-- `admin_reject` (`POST /admin/proofs/{id}/reject`): no-op on a proof that
is not `PENDING`; otherwise judge it `REJECTED` (the team is untouched). -/
def admin_reject (db : DB) (proof_id now : Nat) : DB × ModOut :=
  match db.proofs.find? (fun p => p.id == proof_id) with
  | none => (db, .notFound)
  | some proof =>
    if proof.status ≠ "PENDING" then (db, .alreadyProcessed)
    else
      let p' := { proof with
        status := "REJECTED"
        judged_by := some 0
        judged_at := some now
        updated_at := now }
      ({ db with proofs := updateProofRow db.proofs proof.id p' }, .ok)

-- ========================= game start (api.py) ==============================

/-- Result of `POST /game/start`. -/
inductive StartOut
  | error (code : Nat) (detail : String)
  | alreadyStarted
  | started
  deriving DecidableEq

/-- The `re.match(r"^Команда №\d+$", name)` gate: the name is exactly the
default prefix followed by one or more digits. -/
def isDefaultTeamNamePattern (name : String) : Bool :=
  let pre := "Команда №".toList
  let l := name.toList
  pre.isPrefixOf l &&
    (decide (l.drop pre.length ≠ []) && (l.drop pre.length).all Char.isDigit)

/-- `game_start` (`POST /game/start`): captain-only; idempotent on an already
started team; requires a full team and a (possibly auto-assigned) route; a
still-renameable default-named team is rejected with a Conflict; on success
stamps `started_at` and initialises the checkpoint pointer. -/
def game_start (db : DB) (sz : Nat) (tg_id : String) (now : Nat) : DB × StartOut :=
  match db.users.find? (fun u => u.tg_id == some tg_id) with
  | none => (db, .error 404 "User not found")
  | some user =>
    match db.members.find? (fun m => m.user_id == user.id) with
    | none => (db, .error 409 "User has no team")
    | some member =>
      if pyUpper (pyOrStr member.role "") ≠ "CAPTAIN" then
        (db, .error 403 "Only captain can start")
      else
        match db.teams.find? (fun t => t.id == member.team_id) with
        | none => (db, .error 404 "Team not found")
        | some team =>
          if team.started_at ≠ none then (db, .alreadyStarted)
          else if ¬ teamIsFull db sz team.id then
            (db, .error 409 "Team is not full yet")
          else
            let assigned := autoAssignRouteIfNeeded db team
            if ¬ assigned.2 then
              (assigned.1, .error 409 "Route is not assigned for this team")
            else
              let db1 := assigned.1
              match db1.teams.find? (fun t => t.id == member.team_id) with
              | none => (db1, .error 404 "Team not found")
              | some team1 =>
                if isDefaultTeamNamePattern team1.name && team1.can_rename then
                  (db1, .error 409 "Set custom team name first")
                else
                  let t' := { team1 with
                    started_at := some now
                    current_order_num := pyOrNat team1.current_order_num 1 }
                  ({ db1 with teams := updateTeamRow db1.teams team1.id t' },
                   .started)

-- ========================= legacy submissions (api.py) ======================

/-- Result of the legacy submission moderation endpoints. -/
inductive SubModOut
  | notFound
  | ok
  deriving DecidableEq

/-- `int(reviewer_tg) if reviewer_tg and str(reviewer_tg).isdigit() else None`. -/
def parseReviewerTg (reviewer : Option String) : Option Nat :=
  match reviewer with
  | none => none
  | some s =>
    if decide (s ≠ "") && s.toList.all Char.isDigit then some (digitsVal s.toList)
    else none

/-- `admin_approve_submission` (`POST /admin/submissions/{sid}/approve`): no
status precondition; stamps status `approved` and `reviewed_at`. -/
def admin_approve_submission (db : DB) (sid : Nat) (reviewer : Option String)
    (now : Nat) : DB × SubModOut :=
  match db.submissions.find? (fun s => s.id == sid) with
  | none => (db, .notFound)
  | some s =>
    let s' := { s with
      status := "approved"
      reviewed_at := some now
      reviewed_by_tg := parseReviewerTg reviewer }
    ({ db with submissions := updateSubmissionRow db.submissions s.id s' }, .ok)

/-- `admin_reject_submission` (`POST /admin/submissions/{sid}/reject`): no
status precondition; stamps status `rejected`, keeps the old reject reason
when none is supplied, and stamps `reviewed_at`. -/
def admin_reject_submission (db : DB) (sid : Nat) (reason reviewer : Option String)
    (now : Nat) : DB × SubModOut :=
  match db.submissions.find? (fun s => s.id == sid) with
  | none => (db, .notFound)
  | some s =>
    let s' := { s with
      status := "rejected"
      reject_reason := pyOrOptStr reason s.reject_reason
      reviewed_at := some now
      reviewed_by_tg := parseReviewerTg reviewer }
    ({ db with submissions := updateSubmissionRow db.submissions s.id s' }, .ok)

-- ========================= notification relay (bot/admin_watcher.py) ========

/-- One item of the `/admin/proofs/pending` payload as the watcher reads it:
`pid` is `int(item.get("id"))` (`none` when missing or unparseable), the
other fields are the optional strings the JSON carries. -/
structure PendingItem where
  pid : Option Nat
  updated_at : Option String
  created_at : Option String
  photo_file_id : Option String
  deriving DecidableEq

/-- `AdminWatcher._version_key`:
`f"{pid}:{updated_at or created_at or ''}:{photo_file_id or ''}"`. -/
def versionKey (it : PendingItem) : Option String :=
  match it.pid with
  | none => none
  | some pid =>
    some (toString pid ++ ":" ++ pyOrStr it.updated_at (pyOrStr it.created_at "")
      ++ ":" ++ pyOrStr it.photo_file_id "")

/-- One poll cycle of `AdminWatcher._loop` over the fetched pending items.
`deliver it = true` models `_send_proof_card` not explicitly failing (no
exception and a result other than `False`).  Returns the final seen set
(insertion order preserved) and the list of delivery attempts
`(key, not-failed)` in order. -/
def relayCycle (deliver : PendingItem → Bool) :
    List PendingItem → List String → List String × List (String × Bool)
  | [], seen => (seen, [])
  | it :: rest, seen =>
    match versionKey it with
    | none => relayCycle deliver rest seen
    | some key =>
      if key ∈ seen then relayCycle deliver rest seen
      else
        let ok := deliver it
        let seen' := if ok then seen ++ [key] else seen
        let r := relayCycle deliver rest seen'
        (r.1, (key, ok) :: r.2)

/-- Python `l[-k:]`: the last `k` elements. -/
def pySliceLast (k : Nat) (l : List String) : List String :=
  l.drop (l.length - k)

/-- The periodic seen-set cleanup of `AdminWatcher._loop`:
`if len(seen) > 10000: seen = set(list(seen)[-4000:])`.  The Python `set` has
no insertion order, so the embedding takes the enumeration `list(seen)`
produced by the runtime as input. -/
def maybeTrimSeen (enumSeen : List String) : List String :=
  if enumSeen.length > 10000 then pySliceLast 4000 enumSeen else enumSeen

-- ========================= generic update-row lemmas ========================

/-- Updating the found row makes it the row the same lookup finds. -/
theorem find?_map_update {α : Type} (key : α → Nat) (i : Nat) (x' : α)
    (hx : key x' = i) :
    ∀ (l : List α) (p : α), l.find? (fun q => key q == i) = some p →
      (l.map (fun q => if key q = i then x' else q)).find? (fun q => key q == i)
        = some x' := by
  intro l
  induction l with
  | nil => intro p h; simp at h
  | cons a l ih =>
    intro p h
    by_cases ha : key a = i
    · simp [List.find?_cons, ha, hx]
    · have hfa : (key a == i) = false := by simp [ha]
      rw [List.find?_cons_of_neg _ (by simp [ha])] at h
      simpa [List.find?_cons, ha, hfa] using ih p h

/-- Rows whose key differs from the updated one survive the update. -/
theorem mem_map_update_of_ne {α : Type} (key : α → Nat) (i : Nat) (x' : α)
    (l : List α) (q : α) (hq : q ∈ l) (h : key q ≠ i) :
    q ∈ l.map (fun r => if key r = i then x' else r) := by
  refine List.mem_map.2 ⟨q, hq, ?_⟩
  simp [h]

/-- The replacement row is present after the update when a row with the key
was present. -/
theorem mem_map_update_self {α : Type} (key : α → Nat) (i : Nat) (x' : α)
    (l : List α) (r : α) (hr : r ∈ l) (h : key r = i) :
    x' ∈ l.map (fun q => if key q = i then x' else q) := by
  refine List.mem_map.2 ⟨r, hr, ?_⟩
  simp [h]

/-- Membership for `latestRejectedProof`: a found row is a `REJECTED` row of
the pair in the table. -/
theorem latestRejectedProof_mem (db : DB) (tid cid : Nat) (r : Proof)
    (h : latestRejectedProof db tid cid = some r) :
    r ∈ db.proofs ∧ r.team_id = tid ∧ r.checkpoint_id = cid ∧
      r.status = "REJECTED" := by
  unfold latestRejectedProof at h
  set pred := fun p : Proof =>
    p.team_id == tid && p.checkpoint_id == cid && p.status == "REJECTED" with hpred
  have key : ∀ (l : List Proof) (acc : Option Proof),
      (∀ q, acc = some q → q ∈ db.proofs.filter pred) →
      (∀ x ∈ l, x ∈ db.proofs.filter pred) →
      l.foldl (fun acc p =>
        match acc with
        | none => some p
        | some q => if q.id > p.id then some q else some p) acc = some r →
      r ∈ db.proofs.filter pred := by
    intro l
    induction l with
    | nil => intro acc hacc _ hfold; exact hacc r hfold
    | cons a l ih =>
      intro acc hacc hl hfold
      refine ih _ ?_ (fun x hx => hl x (List.mem_cons_of_mem _ hx)) hfold
      intro q hq
      cases acc with
      | none =>
        simp at hq
        subst hq
        exact hl a (List.mem_cons_self _ _)
      | some b =>
        by_cases hb : b.id > a.id
        · simp [hb] at hq
          subst hq
          exact hacc b rfl
        · simp [hb] at hq
          subst hq
          exact hl a (List.mem_cons_self _ _)
  have hr := key (db.proofs.filter pred) none (by intro q hq; cases hq) (fun x hx => hx) h
  have hmem := List.mem_of_mem_filter hr
  have hp : pred r = true := List.of_mem_filter hr
  simp only [hpred, Bool.and_eq_true, beq_iff_eq] at hp
  exact ⟨hmem, hp.1.1, hp.1.2, hp.2⟩

-- ========================= C9: phone normalization ==========================

/-- The claim's reading of the `8`-rewrite: after stripping, an 11-character
result starting with `8` becomes `+7` followed by its last 10 DIGIT
characters (rather than its last 10 characters). -/
def claimDigitsRewrite (s : String) : String :=
  let ds := (s.toList.filter phoneChar).filter Char.isDigit
  ⟨'+' :: '7' :: ds.drop (ds.length - 10)⟩

/-- The amended description of `norm_phone`, by cases on the stripped input:
an 11-character stripped result starting with `8` is rewritten to `+7`
followed by its last 10 characters; an 11-digit all-digit stripped result
starting with `7` is prefixed with `+`; every other input is returned
stripped but otherwise unchanged (empty input yields the empty string). -/
def amendedNormPhone (s : String) : String :=
  if s = "" then ""
  else
    let l := s.toList.filter phoneChar
    if l.length = 11 ∧ l.headD ' ' = '8' then ⟨'+' :: '7' :: l.tail⟩
    else if l.length = 11 ∧ l.all Char.isDigit ∧ l.headD ' ' = '7' then ⟨'+' :: l⟩
    else ⟨l⟩

/-- C9 counterexample: on `"8+123456789"` the stripped result is 11
characters starting with `8`, yet the code produces `+7` followed by the
last 10 characters `+123456789`, not the last 10 digit characters, so the
claim's `8`-branch description fails at this input. -/
theorem norm_phone_last_digits_counterexample :
    ("8+123456789".toList.filter phoneChar).length = 11 ∧
    ("8+123456789".toList.filter phoneChar).headD ' ' = '8' ∧
    norm_phone "8+123456789" = "+7+123456789" ∧
    claimDigitsRewrite "8+123456789" = "+78123456789" ∧
    norm_phone "8+123456789" ≠ claimDigitsRewrite "8+123456789" := by
  refine ⟨by decide, by decide, by decide, by decide, by decide⟩

/-- C9 (amended): `norm_phone` strips every character that is neither a digit
nor `+`; an 11-character result starting with `8` is rewritten to `+7`
followed by its last 10 characters; an 11-digit all-digit result starting
with `7` is prefixed with `+`; every other input is returned stripped but
otherwise unchanged (empty input yields the empty string). -/
theorem norm_phone_amended_spec (s : String) :
    norm_phone s = amendedNormPhone s := by
  unfold norm_phone amendedNormPhone
  by_cases hs : s = ""
  · simp [hs]
  · simp only [hs, if_false]
    by_cases ha : (s.toList.filter phoneChar).length = 11 ∧
        (s.toList.filter phoneChar).headD ' ' = '8'
    · rw [if_pos ha, if_pos ha]
      have hplus : ¬ (('+' :: '7' :: (s.toList.filter phoneChar).tail) ≠ [] ∧
          ('+' :: '7' :: (s.toList.filter phoneChar).tail).all Char.isDigit ∧
          ('+' :: '7' :: (s.toList.filter phoneChar).tail).length = 11 ∧
          ('+' :: '7' :: (s.toList.filter phoneChar).tail).headD ' ' = '7') := by
        intro hcon
        have := hcon.2.1
        simp [List.all_cons] at this
      rw [if_neg hplus]
    · rw [if_neg ha, if_neg ha]
      by_cases hb : (s.toList.filter phoneChar).length = 11 ∧
          (s.toList.filter phoneChar).all Char.isDigit ∧
          (s.toList.filter phoneChar).headD ' ' = '7'
      · have hne : s.toList.filter phoneChar ≠ [] := by
          intro hnil
          rw [hnil] at hb
          simp at hb
        rw [if_pos ⟨hne, hb.2.1, hb.1, hb.2.2⟩, if_pos hb]
      · have : ¬ (s.toList.filter phoneChar ≠ [] ∧
            (s.toList.filter phoneChar).all Char.isDigit ∧
            (s.toList.filter phoneChar).length = 11 ∧
            (s.toList.filter phoneChar).headD ' ' = '7') := by
          intro hcon
          exact hb ⟨hcon.2.2.1, hcon.2.1, hcon.2.2.2⟩
        rw [if_neg this, if_neg hb]

-- ========================= C2: moderation no-op guard =======================

/-- C2: for every proof whose current status is not `PENDING`, both
`admin_approve` and `admin_reject` return the "already processed" signal and
leave the database — proof rows and team rows alike — completely
unchanged. -/
theorem moderation_noop_when_not_pending
    (db : DB) (pid now : Nat) (proof : Proof)
    (hp : db.proofs.find? (fun p => p.id == pid) = some proof)
    (hs : proof.status ≠ "PENDING") :
    admin_approve db pid now = (db, .alreadyProcessed) ∧
    admin_reject db pid now = (db, .alreadyProcessed) := by
  constructor
  · unfold admin_approve
    rw [hp]
    simp [hs]
  · unfold admin_reject
    rw [hp]
    simp [hs]

/-- An already-judged proof row used by concrete moderation states. -/
def proofApproved1 : Proof :=
  { id := 1, team_id := 1, route_id := 1, checkpoint_id := 1,
    photo_file_id := "file-a", status := "APPROVED",
    submitted_by_user_id := some 1, judged_by := some 0, judged_at := some 5,
    comment := none, created_at := 1, updated_at := 5 }

/-- A database whose only proof is already `APPROVED`. -/
def dbJudged : DB :=
  { users := [], teams := [], members := [], routes := [], checkpoints := [],
    proofs := [proofApproved1], submissions := [] }

/-- C2 witness: approving or rejecting the already-`APPROVED` proof of a
concrete database is a no-op reporting "already processed". -/
theorem moderation_noop_when_not_pending_witness :
    admin_approve dbJudged 1 9 = (dbJudged, .alreadyProcessed) ∧
    admin_reject dbJudged 1 9 = (dbJudged, .alreadyProcessed) :=
  moderation_noop_when_not_pending dbJudged 1 9 proofApproved1 (by decide) (by decide)

-- ========================= C10: legacy submission moderation ================

/-- C10: the legacy submission moderation endpoints have no status
precondition: for every existing submission, approve stamps status
`approved` and `reviewed_at`, and reject stamps status `rejected` and
`reviewed_at`, whatever the current status was (so an already-rejected
submission is flipped to approved and vice versa); there is no
"already processed" guard. -/
theorem submission_moderation_unguarded
    (db : DB) (sid now : Nat) (reason reviewer : Option String) (s : Submission)
    (hs : db.submissions.find? (fun x => x.id == sid) = some s) :
    (admin_approve_submission db sid reviewer now =
      ({ db with
          submissions := updateSubmissionRow db.submissions s.id
            { s with
              status := "approved"
              reviewed_at := some now
              reviewed_by_tg := parseReviewerTg reviewer } }, .ok)) ∧
    (admin_reject_submission db sid reason reviewer now =
      ({ db with
          submissions := updateSubmissionRow db.submissions s.id
            { s with
              status := "rejected"
              reject_reason := pyOrOptStr reason s.reject_reason
              reviewed_at := some now
              reviewed_by_tg := parseReviewerTg reviewer } }, .ok)) := by
  constructor
  · unfold admin_approve_submission
    rw [hs]
  · unfold admin_reject_submission
    rw [hs]

/-- An already-rejected legacy submission. -/
def submissionRejected1 : Submission :=
  { id := 1, user_id := some 1, team_id := some 1, kind := "photo",
    url := none, canonical_url := none, tg_file_id := some "f",
    status := "rejected", reject_reason := some "blurry",
    reviewed_at := some 4, reviewed_by_tg := some 77, created_at := 1 }

/-- A database whose only legacy submission is already rejected. -/
def dbLegacy : DB :=
  { users := [], teams := [], members := [], routes := [], checkpoints := [],
    proofs := [], submissions := [submissionRejected1] }

/-- C10 witness: approving the already-rejected submission of a concrete
database flips it to `approved` and stamps `reviewed_at`, with no guard. -/
theorem submission_moderation_unguarded_witness :
    admin_approve_submission dbLegacy 1 none 9 =
      ({ dbLegacy with
          submissions := updateSubmissionRow dbLegacy.submissions 1
            { submissionRejected1 with
              status := "approved"
              reviewed_at := some 9
              reviewed_by_tg := none } }, .ok) :=
  (submission_moderation_unguarded dbLegacy 1 9 none none submissionRejected1
    (by decide)).1

-- ========================= C4: relay dedup lemmas ===========================

/-- The final seen set of one poll cycle is the initial one extended, in
order, by exactly the keys whose delivery did not explicitly fail. -/
theorem relayCycle_seen_eq (deliver : PendingItem → Bool) :
    ∀ (items : List PendingItem) (seen : List String),
      (relayCycle deliver items seen).1 =
        seen ++ ((relayCycle deliver items seen).2.filter (fun e => e.2)).map
          (fun e => e.1) := by
  intro items
  induction items with
  | nil => intro seen; simp [relayCycle]
  | cons it rest ih =>
    intro seen
    cases hkey : versionKey it with
    | none => simp [relayCycle, hkey, ih]
    | some key =>
      by_cases hin : key ∈ seen
      · simp [relayCycle, hkey, hin, ih]
      · by_cases hok : deliver it = true
        · simp [relayCycle, hkey, hin, hok, ih]
        · rw [Bool.not_eq_true] at hok
          simp [relayCycle, hkey, hin, hok, ih]

/-- Every delivery attempt of a cycle is for a key that was not already in
the seen set when the cycle started. -/
theorem relayCycle_attempts_unseen (deliver : PendingItem → Bool) :
    ∀ (items : List PendingItem) (seen : List String) (e : String × Bool),
      e ∈ (relayCycle deliver items seen).2 → e.1 ∉ seen := by
  intro items
  induction items with
  | nil => intro seen e he; simp [relayCycle] at he
  | cons it rest ih =>
    intro seen e he
    cases hkey : versionKey it with
    | none =>
      rw [relayCycle, hkey] at he
      exact ih seen e he
    | some key =>
      by_cases hin : key ∈ seen
      · rw [relayCycle, hkey] at he
        simp only [if_pos hin] at he
        exact ih seen e he
      · rw [relayCycle, hkey] at he
        simp only [if_neg hin] at he
        rcases List.mem_cons.1 he with he1 | he2
        · rw [he1]; exact hin
        · have := ih _ e he2
          intro hcon
          exact this (by
            by_cases hok : deliver it = true
            · simp [hok]; exact Or.inl hcon
            · rw [Bool.not_eq_true] at hok
              simp [hok]; exact hcon)
  
/-- After a key is delivered without explicit failure, no later attempt in
the same cycle targets the same key. -/
theorem relayCycle_attempts_pairwise (deliver : PendingItem → Bool) :
    ∀ (items : List PendingItem) (seen : List String),
      (relayCycle deliver items seen).2.Pairwise
        (fun e e' => e.2 = true → e.1 ≠ e'.1) := by
  intro items
  induction items with
  | nil => intro seen; simp [relayCycle]
  | cons it rest ih =>
    intro seen
    cases hkey : versionKey it with
    | none => rw [relayCycle, hkey]; exact ih seen
    | some key =>
      by_cases hin : key ∈ seen
      · rw [relayCycle, hkey]
        simp only [if_pos hin]
        exact ih seen
      · rw [relayCycle, hkey]
        simp only [if_neg hin]
        refine List.Pairwise.cons ?_ (ih _)
        intro e' he' hok
        have hok' : deliver it = true := hok
        have hunseen := relayCycle_attempts_unseen deliver rest _ e' he'
        rw [if_pos hok'] at hunseen
        intro hcon
        apply hunseen
        rw [List.mem_append]
        right
        have hkeq : key = e'.1 := hcon
        rw [← hkeq]
        simp

/-- Every fetched item carrying a valid version key that is not yet seen is
attempted (its key appears among the cycle's delivery attempts). -/
theorem relayCycle_unseen_attempted (deliver : PendingItem → Bool) :
    ∀ (items : List PendingItem) (seen : List String) (it : PendingItem)
      (k : String), it ∈ items → versionKey it = some k → k ∉ seen →
      k ∈ (relayCycle deliver items seen).2.map (fun e => e.1) := by
  intro items
  induction items with
  | nil => intro seen it k hmem; simp at hmem
  | cons it0 rest ih =>
    intro seen it k hmem hkey hout
    rcases List.mem_cons.1 hmem with h0 | hrest
    · subst h0
      rw [relayCycle, hkey]
      simp only [if_neg hout]
      simp
    · cases hkey0 : versionKey it0 with
      | none =>
        rw [relayCycle, hkey0]
        exact ih seen it k hrest hkey hout
      | some key0 =>
        by_cases hin : key0 ∈ seen
        · rw [relayCycle, hkey0]
          simp only [if_pos hin]
          exact ih seen it k hrest hkey hout
        · rw [relayCycle, hkey0]
          simp only [if_neg hin]
          by_cases hksame : k = key0
          · simp [hksame]
          · have hout' : k ∉ (if deliver it0 = true then seen ++ [key0] else seen) := by
              intro hc
              by_cases hok : deliver it0 = true
              · rw [if_pos hok] at hc
                rcases List.mem_append.1 hc with h1 | h2
                · exact hout h1
                · exact hksame (List.mem_singleton.1 h2)
              · rw [if_neg hok] at hc
                exact hout hc
            have := ih _ it k hrest hkey hout'
            simp only [List.map_cons]
            exact List.mem_cons_of_mem _ this

/-- C4: in every relay polling cycle, the version key of an item with a
parseable id is `(id, updated_at ?? created_at, media reference)`; a
moderation card is attempted only for keys not already in the seen set; the
seen set gains exactly the keys whose delivery did not explicitly fail; once
a key is delivered without explicit failure no later attempt in the run
targets it (so an unchanged pending record is never delivered twice); and
every fetched item whose key is valid and unseen — in particular a proof
resubmitted after a reject, whose bumped `updated_at`/media reference gives
it a fresh key — is delivered (again) as a new card. -/
theorem relay_version_dedup (deliver : PendingItem → Bool)
    (items : List PendingItem) (seen : List String) :
    (∀ (it : PendingItem) (pid : Nat), it.pid = some pid →
        versionKey it = some (toString pid ++ ":" ++
          pyOrStr it.updated_at (pyOrStr it.created_at "") ++ ":" ++
          pyOrStr it.photo_file_id "")) ∧
    (∀ e ∈ (relayCycle deliver items seen).2, e.1 ∉ seen) ∧
    ((relayCycle deliver items seen).1 =
      seen ++ ((relayCycle deliver items seen).2.filter (fun e => e.2)).map
        (fun e => e.1)) ∧
    ((relayCycle deliver items seen).2.Pairwise
      (fun e e' => e.2 = true → e.1 ≠ e'.1)) ∧
    (∀ it ∈ items, ∀ k, versionKey it = some k → k ∉ seen →
        k ∈ (relayCycle deliver items seen).2.map (fun e => e.1)) := by
  refine ⟨?_, ?_, ?_, ?_, ?_⟩
  · intro it pid hpid
    unfold versionKey
    rw [hpid]
  · exact relayCycle_attempts_unseen deliver items seen
  · exact relayCycle_seen_eq deliver items seen
  · exact relayCycle_attempts_pairwise deliver items seen
  · intro it hmem k hk hout
    exact relayCycle_unseen_attempted deliver items seen it k hmem hk hout

/-- A pending proof row as the relay sees it after a resubmission bumped its
`updated_at` to `T2`. -/
def itemResubmitted : PendingItem :=
  { pid := some 7, updated_at := some "T2", created_at := some "T0",
    photo_file_id := some "file-new" }

/-- C4 witness: in a cycle whose seen set already holds the key of the first
submission (`updated_at = T1`), the resubmitted proof id 7 with
`updated_at = T2` has a fresh key and is delivered as a second card. -/
theorem relay_version_dedup_witness :
    versionKey itemResubmitted = some "7:T2:file-new" ∧
    "7:T2:file-new" ∉ ["7:T1:file-old"] ∧
    "7:T2:file-new" ∈
      ((relayCycle (fun _ => true) [itemResubmitted] ["7:T1:file-old"]).2.map
        (fun e => e.1)) := by
  refine ⟨?_, by decide, ?_⟩
  · exact (relay_version_dedup (fun _ => true) [itemResubmitted]
      ["7:T1:file-old"]).1 itemResubmitted 7 (by decide)
  · exact (relay_version_dedup (fun _ => true) [itemResubmitted]
      ["7:T1:file-old"]).2.2.2.2 itemResubmitted (by decide) "7:T2:file-new"
      (by decide) (by decide)

-- ========================= C5: seen-set trimming ============================

/-- C5 (amended): whenever the seen set has grown past the 10000-key ceiling,
the cleanup keeps exactly 4000 keys and every kept key is one of the seen
keys; which 4000 survive depends on the runtime's enumeration of the Python
`set`, not on insertion recency. -/
theorem relay_trim_bounded (ins enumSeen : List String)
    (hperm : enumSeen.Perm ins) (hlen : ins.length > 10000) :
    (maybeTrimSeen enumSeen).length = 4000 ∧
    ∀ k ∈ maybeTrimSeen enumSeen, k ∈ ins := by
  have hlen' : enumSeen.length = ins.length := hperm.length_eq
  unfold maybeTrimSeen pySliceLast
  rw [if_pos (by omega)]
  constructor
  · rw [List.length_drop]
    omega
  · intro k hk
    exact hperm.subset (List.drop_subset _ _ hk)

/-- A seen set of 10001 distinct keys, in insertion order. -/
def seenBig : List String :=
  (List.range 10001).map (fun i => "k" ++ toString i)

/-- C5 witness: trimming a concrete over-ceiling seen set yields exactly 4000
keys, all of them previously-seen keys. -/
theorem relay_trim_bounded_witness :
    (maybeTrimSeen seenBig).length = 4000 ∧
    ∀ k ∈ maybeTrimSeen seenBig, k ∈ seenBig :=
  relay_trim_bounded seenBig seenBig (List.Perm.refl _)
    (by unfold seenBig; rw [List.length_map, List.length_range]; omega)

/-- C5 counterexample: list-of-set enumeration is not insertion order, and
the trim keeps the tail of the enumeration, not the most recently inserted
keys.  For a concrete over-ceiling seen set inserted as `k0`, `k1`, …,
`k10000` and enumerated in reversed order (a permutation, as `list(set)` may
yield), the trimmed result differs from the most-recently-inserted 4000
keys. -/
theorem relay_trim_recency_counterexample :
    (seenBig.reverse).Perm seenBig ∧
    seenBig.reverse.length > 10000 ∧
    maybeTrimSeen seenBig.reverse ≠ pySliceLast 4000 seenBig := by
  have hlen : seenBig.length = 10001 := by
    unfold seenBig
    rw [List.length_map, List.length_range]
  refine ⟨List.reverse_perm _, by rw [List.length_reverse, hlen]; omega, ?_⟩
  intro heq
  have h1 : (maybeTrimSeen seenBig.reverse).head? = some ("k" ++ toString 3999) := by
    unfold maybeTrimSeen pySliceLast
    rw [if_pos (by rw [List.length_reverse, hlen]; omega)]
    rw [List.head?_drop, List.length_reverse, hlen]
    norm_num
    rw [List.getElem?_reverse (by rw [hlen]; omega), hlen]
    norm_num
    unfold seenBig
    rw [List.getElem?_map, List.getElem?_range (by omega)]
    rfl
  have h2 : (pySliceLast 4000 seenBig).head? = some ("k" ++ toString 6001) := by
    unfold pySliceLast
    rw [List.head?_drop, hlen]
    norm_num
    unfold seenBig
    rw [List.getElem?_map, List.getElem?_range (by omega)]
    rfl
  rw [heq, h2] at h1
  have hks : ("k" ++ toString 6001) = ("k" ++ toString 3999) := by
    injection h1
  exact absurd hks (by decide)

-- ========================= C1: submit proof case analysis ===================

/-- A row found by `findPendingProof` is a `PENDING` row of the pair. -/
theorem findPendingProof_mem (db : DB) (tid cid : Nat) (p : Proof)
    (h : findPendingProof db tid cid = some p) :
    p ∈ db.proofs ∧ p.team_id = tid ∧ p.checkpoint_id = cid ∧
      p.status = "PENDING" := by
  unfold findPendingProof at h
  have hmem := List.mem_of_find?_eq_some h
  have hp := List.find?_some h
  simp only [Bool.and_eq_true, beq_iff_eq] at hp
  exact ⟨hmem, hp.1.1, hp.1.2, hp.2⟩

/-- C1: with a started team and a current checkpoint, `submit_photo_json`
acts by case on the existing proof row for (team, checkpoint): an existing
`PENDING` row is returned as-is with no database change; else an existing
`REJECTED` row is re-opened in place (media reference and submitter
overwritten, judge fields and comment cleared, status `PENDING`,
`updated_at` bumped) with no new row; otherwise exactly one fresh `PENDING`
row is appended. -/
theorem submit_photo_cases
    (db : DB) (tg fid : String) (now : Nat)
    (user : User) (member : TeamMember) (team : Team) (cp : Checkpoint)
    (htg : tg ≠ "") (hfid : fid ≠ "")
    (hu : db.users.find? (fun u => u.tg_id == some tg) = some user)
    (hm : db.members.find? (fun m => m.user_id == user.id) = some member)
    (hcap : pyUpper (pyOrStr member.role "") = "CAPTAIN")
    (ht : db.teams.find? (fun t => t.id == member.team_id) = some team)
    (hst : team.started_at ≠ none)
    (hcp : currentCheckpoint db team = some cp) :
    (∀ p, findPendingProof db team.id cp.id = some p →
        submit_photo_json db tg fid now = (db, .alreadyQueued p.id) ∧
        p ∈ db.proofs ∧ p.team_id = team.id ∧ p.checkpoint_id = cp.id ∧
        p.status = "PENDING") ∧
    (findPendingProof db team.id cp.id = none →
      ∀ r, latestRejectedProof db team.id cp.id = some r →
        submit_photo_json db tg fid now =
          ({ db with proofs := updateProofRow db.proofs r.id (reopenProof r fid user.id now) }, .requeued r.id) ∧
        r ∈ db.proofs ∧ r.team_id = team.id ∧ r.checkpoint_id = cp.id ∧
        r.status = "REJECTED" ∧
        (updateProofRow db.proofs r.id (reopenProof r fid user.id now)).length
          = db.proofs.length) ∧
    (findPendingProof db team.id cp.id = none →
      latestRejectedProof db team.id cp.id = none →
        submit_photo_json db tg fid now =
          ({ db with proofs := db.proofs ++ [freshProof db team cp.id fid user.id now] },
           .queued (freshProof db team cp.id fid user.id now).id)) := by
  have hbranch : ∀ out : DB × SubmitOut,
      submit_photo_json db tg fid now = out ↔
      (match findPendingProof db team.id cp.id with
       | some pending => (db, SubmitOut.alreadyQueued pending.id)
       | none =>
         match latestRejectedProof db team.id cp.id with
         | some rej =>
           ({ db with proofs := updateProofRow db.proofs rej.id (reopenProof rej fid user.id now) }, SubmitOut.requeued rej.id)
         | none =>
           let p := freshProof db team cp.id fid user.id now
           ({ db with proofs := db.proofs ++ [p] }, SubmitOut.queued p.id)) = out := by
    intro out
    unfold submit_photo_json
    simp [hu, hm, ht, hcp, htg, hfid, hcap, hst]
  refine ⟨?_, ?_, ?_⟩
  · intro p hp
    obtain ⟨hmem, h1, h2, h3⟩ := findPendingProof_mem db team.id cp.id p hp
    refine ⟨?_, hmem, h1, h2, h3⟩
    rw [hbranch]
    rw [hp]
  · intro hnone r hr
    obtain ⟨hmem, h1, h2, h3⟩ := latestRejectedProof_mem db team.id cp.id r hr
    refine ⟨?_, hmem, h1, h2, h3, ?_⟩
    · rw [hbranch]
      rw [hnone, hr]
    · unfold updateProofRow
      rw [List.length_map]
  · intro hnone1 hnone2
    rw [hbranch]
    rw [hnone1, hnone2]

/-- Captain user of the concrete game fixtures. -/
def userCap : User := { id := 1, tg_id := some "100", phone := some "+70000000001" }

/-- Captain membership of the concrete game fixtures. -/
def memberCap : TeamMember := { id := 1, team_id := 1, user_id := 1, role := some "CAPTAIN" }

/-- A started, routed, renamed team. -/
def teamStarted : Team :=
  { id := 1, name := "Trailblazers", is_locked := true, route_id := some 1,
    current_order_num := 1, can_rename := false, started_at := some 2,
    finished_at := none }

/-- Concrete route of the fixtures. -/
def routeA : Route := { id := 1, code := "A" }

/-- First checkpoint of route A. -/
def cpA1 : Checkpoint := { id := 10, route_id := 1, order_num := 1 }

/-- Second checkpoint of route A. -/
def cpA2 : Checkpoint := { id := 11, route_id := 1, order_num := 2 }

/-- A pending proof of team 1 at checkpoint A1. -/
def proofPendingA1 : Proof :=
  { id := 3, team_id := 1, route_id := 1, checkpoint_id := 10,
    photo_file_id := "file-1", status := "PENDING",
    submitted_by_user_id := some 1, judged_by := none, judged_at := none,
    comment := none, created_at := 3, updated_at := 3 }

/-- A game state with one pending proof at the current checkpoint. -/
def dbPending : DB :=
  { users := [userCap], teams := [teamStarted], members := [memberCap],
    routes := [routeA], checkpoints := [cpA1, cpA2],
    proofs := [proofPendingA1], submissions := [] }

/-- C1 witness: submitting again while the concrete pending proof exists
returns the same proof id and leaves the database unchanged. -/
theorem submit_photo_cases_witness :
    submit_photo_json dbPending "100" "file-2" 9 = (dbPending, .alreadyQueued 3) ∧
    proofPendingA1 ∈ dbPending.proofs := by
  have h := (submit_photo_cases dbPending "100" "file-2" 9 userCap memberCap
    teamStarted cpA1 (by decide) (by decide) (by decide) (by decide) (by decide)
    (by decide) (by decide) (by decide)).1 proofPendingA1 (by decide)
  exact ⟨h.1, h.2.1⟩

-- ========================= C3: approval advances the team ===================

/-- In a list with pairwise-distinct keys, rows are uniquely determined by
their key. -/
theorem nodupKeyUnique {α : Type} (key : α → Nat) :
    ∀ (l : List α), (l.map key).Nodup → ∀ a ∈ l, ∀ b ∈ l, key a = key b → a = b := by
  intro l
  induction l with
  | nil => intro _ a ha; cases ha
  | cons c l ih =>
    intro hnd a ha b hb hk
    rw [List.map_cons, List.nodup_cons] at hnd
    rcases List.mem_cons.1 ha with ha1 | ha2 <;> rcases List.mem_cons.1 hb with hb1 | hb2
    · rw [ha1, hb1]
    · subst ha1
      exact absurd (by rw [hk]; exact List.mem_map_of_mem _ hb2) hnd.1
    · subst hb1
      exact absurd (by rw [← hk]; exact List.mem_map_of_mem _ ha2) hnd.1
    · exact ih hnd.2 a ha2 b hb2 hk

/-- Every row of an updated team table is either an original row or the
replacement. -/
theorem mem_updateTeamRow (l : List Team) (i : Nat) (x' : Team) (t'' : Team)
    (h : t'' ∈ updateTeamRow l i x') : ∃ x ∈ l, t'' = if x.id = i then x' else x := by
  unfold updateTeamRow at h
  obtain ⟨x, hx, hfx⟩ := List.mem_map.1 h
  exact ⟨x, hx, hfx.symm⟩

/-- An id-preserving row update leaves the id column unchanged. -/
theorem map_id_updateTeamRow (l : List Team) (i : Nat) (x' : Team)
    (hx : x'.id = i) :
    (updateTeamRow l i x').map (fun t => t.id) = l.map (fun t => t.id) := by
  unfold updateTeamRow
  rw [List.map_map]
  apply List.map_congr_left
  intro t _
  by_cases h : t.id = i
  · simp [h, hx]
  · simp [h]

/-- Row update against a table with unique ids: a row of the result that
shares its id with an original row `t` is either `t` itself or (when `t` is
the updated row) the replacement. -/
theorem pointer_after_update (l : List Team) (i : Nat) (x' base : Team)
    (hnd : (l.map (fun t => t.id)).Nodup) (hbase : base ∈ l) (hbi : base.id = i)
    (hx : x'.id = i) (t : Team) (ht : t ∈ l) (t'' : Team)
    (ht'' : t'' ∈ updateTeamRow l i x') (hid : t''.id = t.id) :
    t'' = t ∨ (t = base ∧ t'' = x') := by
  obtain ⟨x, hxl, hxeq⟩ := mem_updateTeamRow l i x' t'' ht''
  by_cases hxi : x.id = i
  · right
    rw [if_pos hxi] at hxeq
    have htb : t = base := by
      apply nodupKeyUnique _ l hnd t ht base hbase
      rw [← hid, hxeq, hx, hbi]
    exact ⟨htb, hxeq⟩
  · left
    rw [if_neg hxi] at hxeq
    subst hxeq
    exact nodupKeyUnique _ l hnd t'' hxl t ht hid

/-- `_auto_assign_route_if_needed` returns the database unchanged or with a
single id-preserving, pointer-preserving route binding on the given team. -/
theorem autoAssign_shape (db : DB) (team : Team) :
    autoAssignRouteIfNeeded db team = (db, true) ∨
    autoAssignRouteIfNeeded db team = (db, false) ∨
    ∃ rid, autoAssignRouteIfNeeded db team =
      ({ db with teams := updateTeamRow db.teams team.id { team with route_id := some rid } }, true) := by
  unfold autoAssignRouteIfNeeded
  cases hrt : team.route_id with
  | some r => left; rfl
  | none =>
    cases hrw : routesWithCheckpoints db with
    | nil => right; left; rfl
    | cons r rs => right; right; exact ⟨_, rfl⟩

/-- Helper for C3: `game_start` never changes a positive checkpoint pointer
of any team row; it can only turn a falsy pointer (0) into the initial 1. -/
theorem game_start_pointer_helper (db : DB) (sz : Nat) (tg : String) (now : Nat)
    (hnd : (db.teams.map (fun x => x.id)).Nodup) :
    ∀ t ∈ db.teams, ∀ t'' ∈ ((game_start db sz tg now).1).teams, t''.id = t.id →
      t''.current_order_num = t.current_order_num ∨
      (t.current_order_num = 0 ∧ t''.current_order_num = 1) := by
  intro t ht t'' ht'' hid
  have base : t'' ∈ db.teams →
      t''.current_order_num = t.current_order_num ∨
      (t.current_order_num = 0 ∧ t''.current_order_num = 1) := by
    intro hmem
    left
    rw [nodupKeyUnique (fun x => x.id) db.teams hnd t'' hmem t ht hid]
  unfold game_start at ht''
  cases hu : db.users.find? (fun u => u.tg_id == some tg) with
  | none => simp only [hu] at ht''; exact base ht''
  | some user =>
    simp only [hu] at ht''
    cases hm : db.members.find? (fun m => m.user_id == user.id) with
    | none => simp only [hm] at ht''; exact base ht''
    | some member =>
      simp only [hm] at ht''
      by_cases hcap : pyUpper (pyOrStr member.role "") ≠ "CAPTAIN"
      · rw [if_pos hcap] at ht''; exact base ht''
      · rw [if_neg hcap] at ht''
        cases htm : db.teams.find? (fun x => x.id == member.team_id) with
        | none => simp only [htm] at ht''; exact base ht''
        | some team =>
          simp only [htm] at ht''
          have hteam_mem : team ∈ db.teams := List.mem_of_find?_eq_some htm
          by_cases hstart : team.started_at ≠ none
          · rw [if_pos hstart] at ht''; exact base ht''
          · rw [if_neg hstart] at ht''
            by_cases hfull : ¬ teamIsFull db sz team.id = true
            · rw [if_pos hfull] at ht''; exact base ht''
            · rw [if_neg hfull] at ht''
              rcases autoAssign_shape db team with hsh | hsh | ⟨rid, hsh⟩
              · -- route already bound: db1 = db
                rw [hsh] at ht''
                simp only [Bool.not_true] at ht''
                rw [if_neg (by simp)] at ht''
                cases htm1 : db.teams.find? (fun x => x.id == member.team_id) with
                | none => simp only [htm1] at ht''; exact base ht''
                | some team1 =>
                  simp only [htm1] at ht''
                  have hteam1_mem : team1 ∈ db.teams := List.mem_of_find?_eq_some htm1
                  by_cases hgate : (isDefaultTeamNamePattern team1.name &&
                      team1.can_rename) = true
                  · rw [if_pos hgate] at ht''; exact base ht''
                  · rw [if_neg hgate] at ht''
                    have ht''2 : t'' ∈ updateTeamRow db.teams team1.id { team1 with started_at := some now, current_order_num := pyOrNat team1.current_order_num 1 } := ht''
                    rcases pointer_after_update db.teams team1.id { team1 with started_at := some now, current_order_num := pyOrNat team1.current_order_num 1 } team1 hnd
                        hteam1_mem rfl rfl t ht t'' ht''2 hid with heq | ⟨hteq, heq⟩
                    · left; rw [heq]
                    · have hptr : t''.current_order_num =
                          pyOrNat team1.current_order_num 1 := by rw [heq]
                      by_cases h0 : t.current_order_num = 0
                      · right
                        refine ⟨h0, ?_⟩
                        rw [hptr, ← hteq, h0]
                        rfl
                      · left
                        rw [hptr, ← hteq]
                        unfold pyOrNat
                        rw [if_neg h0]
              · -- no route available: start fails, db unchanged
                rw [hsh] at ht''
                simp only [Bool.not_false] at ht''
                rw [if_pos (by simp)] at ht''
                exact base ht''
              · -- route freshly assigned: db1.teams is an id/pointer-preserving update
                rw [hsh] at ht''
                simp only [Bool.not_true] at ht''
                rw [if_neg (by simp)] at ht''
                set rteam : Team := { team with route_id := some rid } with hrteam
                set dbt := updateTeamRow db.teams team.id rteam with hdbt
                have hnd1 : (dbt.map (fun x => x.id)).Nodup := by
                  rw [hdbt, map_id_updateTeamRow db.teams team.id rteam rfl]
                  exact hnd
                -- the ancestor of t in the updated table
                have hanc : ∃ tmid ∈ dbt, tmid.id = t.id ∧
                    tmid.current_order_num = t.current_order_num := by
                  by_cases hti : t.id = team.id
                  · have hteam_t : t = team :=
                      nodupKeyUnique (fun x => x.id) db.teams hnd t ht team hteam_mem hti
                    refine ⟨rteam, ?_, ?_, ?_⟩
                    · rw [hdbt]
                      exact mem_map_update_self (fun x => x.id) team.id rteam
                        db.teams team hteam_mem rfl
                    · rw [hrteam, hteam_t]
                    · rw [hrteam, hteam_t]
                  · refine ⟨t, ?_, rfl, rfl⟩
                    rw [hdbt]
                    exact mem_map_update_of_ne (fun x => x.id) team.id rteam
                      db.teams t ht hti
                obtain ⟨tmid, htmid_mem, htmid_id, htmid_ptr⟩ := hanc
                cases htm1 : dbt.find? (fun x => x.id == member.team_id) with
                | none =>
                  simp only [htm1] at ht''
                  rcases pointer_after_update db.teams team.id rteam team hnd
                      hteam_mem rfl rfl t ht t'' ht'' hid with heq | ⟨hteq, heq⟩
                  · left; rw [heq]
                  · left
                    rw [heq, hrteam, ← hteq]
                | some team1 =>
                  simp only [htm1] at ht''
                  have hteam1_mem : team1 ∈ dbt := List.mem_of_find?_eq_some htm1
                  by_cases hgate : (isDefaultTeamNamePattern team1.name &&
                      team1.can_rename) = true
                  · rw [if_pos hgate] at ht''
                    rcases pointer_after_update db.teams team.id rteam team hnd
                        hteam_mem rfl rfl t ht t'' ht'' hid with heq | ⟨hteq, heq⟩
                    · left; rw [heq]
                    · left
                      rw [heq, hrteam, ← hteq]
                  · rw [if_neg hgate] at ht''
                    have hid' : t''.id = tmid.id := by rw [hid, htmid_id]
                    have ht''2 : t'' ∈ updateTeamRow dbt team1.id { team1 with started_at := some now, current_order_num := pyOrNat team1.current_order_num 1 } := ht''
                    rcases pointer_after_update dbt team1.id { team1 with started_at := some now, current_order_num := pyOrNat team1.current_order_num 1 } team1 hnd1
                        hteam1_mem rfl rfl tmid htmid_mem t'' ht''2 hid'
                      with heq | ⟨hteq, heq⟩
                    · left; rw [heq, htmid_ptr]
                    · have hptr : t''.current_order_num =
                          pyOrNat team1.current_order_num 1 := by rw [heq]
                      by_cases h0 : t.current_order_num = 0
                      · right
                        refine ⟨h0, ?_⟩
                        rw [hptr, ← hteq, htmid_ptr, h0]
                        rfl
                      · left
                        rw [hptr, ← hteq, htmid_ptr]
                        unfold pyOrNat
                        rw [if_neg h0]

/-- C3: approving a `PENDING` proof judges it `APPROVED` and advances the
owning team: on the last checkpoint `finished_at` is set only when unset
(and the pointer is untouched), otherwise `current_order_num` grows by
exactly 1; a second approve call on the now-`APPROVED` proof is a no-op; and
among the embedded operations only approve increments the pointer — reject
and photo submission leave the team table untouched, and `game_start` can
only initialise a falsy pointer to 1, never increment a positive one. -/
theorem approve_advances_team
    (db : DB) (pid now : Nat) (proof : Proof) (team : Team)
    (hp : db.proofs.find? (fun p => p.id == pid) = some proof)
    (hstatus : proof.status = "PENDING")
    (ht : db.teams.find? (fun t => t.id == proof.team_id) = some team)
    (hord : 1 ≤ team.current_order_num) :
    ((admin_approve db pid now).2 = ModOut.ok) ∧
    (((admin_approve db pid now).1).proofs = updateProofRow db.proofs proof.id { proof with status := "APPROVED", judged_by := some 0, judged_at := some now, updated_at := now }) ∧
    (isLastCheckpoint db team = true → team.finished_at = none →
      ((admin_approve db pid now).1).teams = updateTeamRow db.teams team.id { team with finished_at := some now }) ∧
    (isLastCheckpoint db team = true → team.finished_at ≠ none →
      ((admin_approve db pid now).1).teams = db.teams) ∧
    (isLastCheckpoint db team = false →
      ((admin_approve db pid now).1).teams = updateTeamRow db.teams team.id { team with current_order_num := team.current_order_num + 1 }) ∧
    (∀ now2, admin_approve (admin_approve db pid now).1 pid now2 =
      ((admin_approve db pid now).1, ModOut.alreadyProcessed)) ∧
    (∀ db2 pid2 now2, ((admin_reject db2 pid2 now2).1).teams = db2.teams) ∧
    (∀ db2 tg fid now2, ((submit_photo_json db2 tg fid now2).1).teams = db2.teams) ∧
    (∀ db2 sz tg now2, (db2.teams.map (fun x => x.id)).Nodup →
      ∀ t ∈ db2.teams, ∀ t'' ∈ ((game_start db2 sz tg now2).1).teams, t''.id = t.id →
        t''.current_order_num = t.current_order_num ∨
        (t.current_order_num = 0 ∧ t''.current_order_num = 1)) := by
  have hpid : proof.id = pid := by
    have hps := List.find?_some hp
    simpa using hps
  set p' : Proof := { proof with status := "APPROVED", judged_by := some 0, judged_at := some now, updated_at := now } with hp'
  have hbr : isLastCheckpoint { db with proofs := updateProofRow db.proofs proof.id p' } team = isLastCheckpoint db team := rfl
  have hmain : admin_approve db pid now =
      (if isLastCheckpoint db team = true then
        (if team.finished_at = none then
          ({ db with proofs := updateProofRow db.proofs proof.id p', teams := updateTeamRow db.teams team.id { team with finished_at := some now } }, ModOut.ok)
         else ({ db with proofs := updateProofRow db.proofs proof.id p' }, ModOut.ok))
       else ({ db with proofs := updateProofRow db.proofs proof.id p', teams := updateTeamRow db.teams team.id (advanceTeam team) }, ModOut.ok)) := by
    unfold admin_approve
    rw [hp]
    simp only [hstatus, ne_eq, not_true_eq_false, if_false, ht, hbr]
  have hadv : advanceTeam team = { team with current_order_num := team.current_order_num + 1 } := by
    unfold advanceTeam pyOrNat
    rw [if_neg (by omega)]
  have hfind2 : (updateProofRow db.proofs proof.id p').find? (fun q => q.id == pid) = some p' := by
    unfold updateProofRow
    rw [hpid]
    exact find?_map_update (fun q => q.id) pid p' (by rw [hp']; exact hpid)
      db.proofs proof hp
  refine ⟨?_, ?_, ?_, ?_, ?_, ?_, ?_, ?_, ?_⟩
  · rw [hmain]
    by_cases hlast : isLastCheckpoint db team = true
    · rw [if_pos hlast]
      by_cases hfin : team.finished_at = none
      · rw [if_pos hfin]
      · rw [if_neg hfin]
    · rw [if_neg hlast]
  · rw [hmain]
    by_cases hlast : isLastCheckpoint db team = true
    · rw [if_pos hlast]
      by_cases hfin : team.finished_at = none
      · rw [if_pos hfin]
      · rw [if_neg hfin]
    · rw [if_neg hlast]
  · intro hlast hfin
    rw [hmain, if_pos hlast, if_pos hfin]
  · intro hlast hfin
    rw [hmain, if_pos hlast, if_neg hfin]
  · intro hlast
    rw [hmain, if_neg (by rw [hlast]; exact Bool.false_ne_true), hadv]
  · intro now2
    rw [hmain]
    have hnp : ¬ p'.status = "PENDING" := by
      show ¬ ("APPROVED" = "PENDING")
      decide
    by_cases hlast : isLastCheckpoint db team = true
    · rw [if_pos hlast]
      by_cases hfin : team.finished_at = none
      · rw [if_pos hfin]
        unfold admin_approve
        simp only [hfind2]
        simp [hnp]
      · rw [if_neg hfin]
        unfold admin_approve
        simp only [hfind2]
        simp [hnp]
    · rw [if_neg hlast]
      unfold admin_approve
      simp only [hfind2]
      simp [hnp]
  · intro db2 pid2 now2
    unfold admin_reject
    repeat' split
    all_goals rfl
  · intro db2 tg fid now2
    unfold submit_photo_json
    repeat' split
    all_goals rfl
  · intro db2 sz tg now2 hnd
    exact game_start_pointer_helper db2 sz tg now2 hnd

/-- C3 witness: approving the concrete pending proof (checkpoint 1 of 2)
succeeds and bumps the team pointer from 1 to 2. -/
theorem approve_advances_team_witness :
    (admin_approve dbPending 3 9).2 = ModOut.ok ∧
    ((admin_approve dbPending 3 9).1).teams =
      updateTeamRow dbPending.teams 1 { teamStarted with current_order_num := 2 } := by
  have h := approve_advances_team dbPending 3 9 proofPendingA1 teamStarted
    (by decide) (by decide) (by decide) (by decide)
  exact ⟨h.1, h.2.2.2.2.1 (by decide)⟩

-- ========================= C8: start gated on rename ========================

/-- C8: for a captain's full, routed, not-yet-started team, `game_start`
fails with a Conflict — leaving the whole database, in particular
`started_at`, unchanged — while the name still matches the default
"Команда №N" pattern and the one-shot rename right is unused; once the gate
no longer applies the start succeeds, stamps `started_at`, and initialises
`current_order_num` to 1 exactly when it was unset (falsy). -/
theorem start_rename_gate
    (db : DB) (sz : Nat) (tg : String) (now : Nat)
    (user : User) (member : TeamMember) (team : Team)
    (hu : db.users.find? (fun u => u.tg_id == some tg) = some user)
    (hm : db.members.find? (fun m => m.user_id == user.id) = some member)
    (hcap : pyUpper (pyOrStr member.role "") = "CAPTAIN")
    (ht : db.teams.find? (fun t => t.id == member.team_id) = some team)
    (hunstarted : team.started_at = none)
    (hfull : teamIsFull db sz team.id = true)
    (hrouted : team.route_id ≠ none) :
    (isDefaultTeamNamePattern team.name = true → team.can_rename = true →
      game_start db sz tg now = (db, .error 409 "Set custom team name first")) ∧
    ((isDefaultTeamNamePattern team.name && team.can_rename) = false →
      game_start db sz tg now =
        ({ db with teams := updateTeamRow db.teams team.id { team with started_at := some now, current_order_num := pyOrNat team.current_order_num 1 } }, .started)) ∧
    (team.current_order_num = 0 → pyOrNat team.current_order_num 1 = 1) ∧
    (1 ≤ team.current_order_num →
      pyOrNat team.current_order_num 1 = team.current_order_num) := by
  obtain ⟨r, hr⟩ := Option.ne_none_iff_exists'.1 hrouted
  have hassign : autoAssignRouteIfNeeded db team = (db, true) := by
    unfold autoAssignRouteIfNeeded
    rw [hr]
  refine ⟨?_, ?_, ?_, ?_⟩
  · intro hd hcr
    unfold game_start
    simp [hu, hm, hcap, ht, hunstarted, hfull, hassign, hd, hcr]
  · intro hgate
    unfold game_start
    simp [hu, hm, hcap, ht, hunstarted, hfull, hassign, hgate]
  · intro h0
    unfold pyOrNat
    rw [if_pos h0]
  · intro h1
    unfold pyOrNat
    rw [if_neg (by omega)]

/-- A full (capacity 1), routed team still carrying the default name with the
rename right unused. -/
def teamDefaultNamed : Team :=
  { id := 1, name := "Команда №1", is_locked := true, route_id := some 1,
    current_order_num := 1, can_rename := true, started_at := none,
    finished_at := none }

/-- The same team after its one-shot rename. -/
def teamRenamed : Team :=
  { teamDefaultNamed with name := "Trailblazers", can_rename := false }

/-- Game state before the rename: start must be refused. -/
def dbGate : DB :=
  { users := [userCap], teams := [teamDefaultNamed], members := [memberCap],
    routes := [routeA], checkpoints := [cpA1, cpA2], proofs := [],
    submissions := [] }

/-- Game state after the rename: start must succeed. -/
def dbReady : DB := { dbGate with teams := [teamRenamed] }

/-- C8 witness: with capacity 1 the concrete team is full and routed; start
is refused with a Conflict while the default name is still renameable, and
succeeds (stamping `started_at`) once the team was renamed. -/
theorem start_rename_gate_witness :
    game_start dbGate 1 "100" 7 = (dbGate, .error 409 "Set custom team name first") ∧
    game_start dbReady 1 "100" 7 =
      ({ dbReady with teams := updateTeamRow dbReady.teams 1 { teamRenamed with started_at := some 7, current_order_num := 1 } }, .started) := by
  constructor
  · exact (start_rename_gate dbGate 1 "100" 7 userCap memberCap teamDefaultNamed
      (by decide) (by decide) (by decide) (by decide) (by decide) (by decide)
      (by decide)).1 (by decide) (by decide)
  · exact (start_rename_gate dbReady 1 "100" 7 userCap memberCap teamRenamed
      (by decide) (by decide) (by decide) (by decide) (by decide) (by decide)
      (by decide)).2.1 (by decide)

-- ========================= C6: route auto-assignment ========================

/-- Eligibility for auto-assignment: member of the route table with at least
one checkpoint. -/
theorem mem_routesWithCheckpoints (db : DB) (r : Route) :
    r ∈ routesWithCheckpoints db ↔
      r ∈ db.routes ∧ routeTotalCheckpoints db (some r.id) > 0 := by
  unfold routesWithCheckpoints
  rw [List.mem_filter, (List.perm_insertionSort routeLe db.routes).mem_iff]
  simp

/-- The eligible-routes scan is strictly ascending in id when route ids are
unique. -/
theorem routesWithCheckpoints_strict_sorted (db : DB)
    (hnd : (db.routes.map (fun r => r.id)).Nodup) :
    (routesWithCheckpoints db).Pairwise (fun a b => a.id < b.id) := by
  have hsorted : (List.insertionSort routeLe db.routes).Pairwise routeLe :=
    List.sorted_insertionSort routeLe db.routes
  have hperm : List.Perm ((List.insertionSort routeLe db.routes).map (fun r => r.id))
      (db.routes.map (fun r => r.id)) :=
    List.Perm.map (fun r => r.id) (List.perm_insertionSort routeLe db.routes)
  have hnd2 : ((List.insertionSort routeLe db.routes).map (fun r => r.id)).Nodup :=
    hperm.nodup_iff.2 hnd
  have hne : (List.insertionSort routeLe db.routes).Pairwise
      (fun a b => a.id ≠ b.id) := List.pairwise_map.1 hnd2
  have hstrict : (List.insertionSort routeLe db.routes).Pairwise
      (fun a b => a.id < b.id) := by
    refine (hsorted.and hne).imp ?_
    intro a b hab
    exact lt_of_le_of_ne hab.1 hab.2
  exact hstrict.sublist (List.filter_sublist _)

/-- Python `min` over a strictly id-ascending candidate list returns an
element with globally minimal key, and among key ties the least id (the
first found in the ascending scan). -/
theorem pyMinBy_spec (key : Route → Nat) :
    ∀ (l : List Route) (best : Route),
      (best :: l).Pairwise (fun a b => a.id < b.id) →
      pyMinBy key best l ∈ best :: l ∧
      (∀ y ∈ best :: l, key (pyMinBy key best l) ≤ key y) ∧
      (∀ y ∈ best :: l, key (pyMinBy key best l) = key y →
        (pyMinBy key best l).id ≤ y.id) := by
  intro l
  induction l with
  | nil =>
    intro best _
    refine ⟨List.mem_cons_self _ _, ?_, ?_⟩
    · intro y hy
      rcases List.mem_cons.1 hy with h | h
      · rw [h]; exact Nat.le_refl _
      · cases h
    · intro y hy _
      rcases List.mem_cons.1 hy with h | h
      · rw [h]; exact Nat.le_refl _
      · cases h
  | cons x xs ih =>
    intro best hp
    have hbx : best.id < x.id := (List.pairwise_cons.1 hp).1 x (List.mem_cons_self _ _)
    have hpx : (x :: xs).Pairwise (fun a b => a.id < b.id) :=
      hp.sublist (List.sublist_cons_self best (x :: xs))
    have hpb : (best :: xs).Pairwise (fun a b => a.id < b.id) := by
      refine hp.sublist ?_
      exact (List.sublist_cons_self x xs).cons₂ best
    have hstep : pyMinBy key best (x :: xs) =
        if key x < key best then pyMinBy key x xs else pyMinBy key best xs := rfl
    by_cases hlt : key x < key best
    · have h := ih x hpx
      rw [hstep, if_pos hlt]
      refine ⟨List.mem_cons_of_mem best h.1, ?_, ?_⟩
      · intro y hy
        rcases List.mem_cons.1 hy with h1 | h2
        · rw [h1]
          exact Nat.le_of_lt (Nat.lt_of_le_of_lt (h.2.1 x (List.mem_cons_self _ _)) hlt)
        · exact h.2.1 y h2
      · intro y hy hkey
        rcases List.mem_cons.1 hy with h1 | h2
        · exfalso
          have hle := h.2.1 x (List.mem_cons_self _ _)
          rw [hkey, h1] at hle
          exact absurd (Nat.lt_of_le_of_lt hle hlt) (Nat.lt_irrefl _)
        · exact h.2.2 y h2 hkey
    · have h := ih best hpb
      rw [hstep, if_neg hlt]
      have hmem : pyMinBy key best xs ∈ best :: x :: xs := by
        rcases List.mem_cons.1 h.1 with h1 | h2
        · rw [h1]; exact List.mem_cons_self _ _
        · exact List.mem_cons_of_mem best (List.mem_cons_of_mem x h2)
      refine ⟨hmem, ?_, ?_⟩
      · intro y hy
        rcases List.mem_cons.1 hy with h1 | hy2
        · rw [h1]
          exact h.2.1 best (List.mem_cons_self _ _)
        · rcases List.mem_cons.1 hy2 with h2 | h3
          · rw [h2]
            exact Nat.le_trans (h.2.1 best (List.mem_cons_self _ _))
              (Nat.le_of_not_lt hlt)
          · exact h.2.1 y (List.mem_cons_of_mem best h3)
      · intro y hy hkey
        rcases List.mem_cons.1 hy with h1 | hy2
        · subst h1
          exact h.2.2 y (List.mem_cons_self _ _) hkey
        · rcases List.mem_cons.1 hy2 with h2 | h3
          · subst h2
            have hkb : key (pyMinBy key best xs) = key best := by
              have hub := h.2.1 best (List.mem_cons_self _ _)
              have hby := Nat.le_of_not_lt hlt
              omega
            have hid := h.2.2 best (List.mem_cons_self _ _) hkb
            exact Nat.le_of_lt (Nat.lt_of_le_of_lt hid hbx)
          · exact h.2.2 y (List.mem_cons_of_mem best h3) hkey

/-- C6: `autoAssignRouteIfNeeded` is a no-op success when the team already
has a route; it fails, changing nothing, when no route with a checkpoint
exists; otherwise it binds the team to an eligible route (so never one with
zero checkpoints) whose currently-bound-team count is globally minimal among
eligible routes, breaking count ties by the lowest route id. -/
theorem auto_assign_route_selection
    (db : DB) (team : Team)
    (hnd : (db.routes.map (fun r => r.id)).Nodup) :
    (team.route_id ≠ none → autoAssignRouteIfNeeded db team = (db, true)) ∧
    (team.route_id = none → routesWithCheckpoints db = [] →
      autoAssignRouteIfNeeded db team = (db, false)) ∧
    (team.route_id = none → routesWithCheckpoints db ≠ [] →
      (autoAssignRouteIfNeeded db team).2 = true ∧
      ∃ chosen : Route,
        ((autoAssignRouteIfNeeded db team).1).teams =
          updateTeamRow db.teams team.id { team with route_id := some chosen.id } ∧
        chosen ∈ db.routes ∧
        routeTotalCheckpoints db (some chosen.id) > 0 ∧
        (∀ r ∈ db.routes, routeTotalCheckpoints db (some r.id) > 0 →
          teamsOnRoute db chosen.id ≤ teamsOnRoute db r.id) ∧
        (∀ r ∈ db.routes, routeTotalCheckpoints db (some r.id) > 0 →
          teamsOnRoute db chosen.id = teamsOnRoute db r.id → chosen.id ≤ r.id)) := by
  refine ⟨?_, ?_, ?_⟩
  · intro hsome
    obtain ⟨rid, hrid⟩ := Option.ne_none_iff_exists'.1 hsome
    unfold autoAssignRouteIfNeeded
    rw [hrid]
  · intro hnone hempty
    unfold autoAssignRouteIfNeeded
    rw [hnone, hempty]
  · intro hnone hne
    cases hrw : routesWithCheckpoints db with
    | nil => exact absurd hrw hne
    | cons r rs =>
      have hpair : (r :: rs).Pairwise (fun a b => a.id < b.id) := by
        rw [← hrw]
        exact routesWithCheckpoints_strict_sorted db hnd
      have hspec := pyMinBy_spec (fun x => teamsOnRoute db x.id) rs r hpair
      have heq : autoAssignRouteIfNeeded db team =
          ({ db with teams := updateTeamRow db.teams team.id { team with route_id := some (pyMinBy (fun x => teamsOnRoute db x.id) r rs).id } }, true) := by
        unfold autoAssignRouteIfNeeded
        rw [hnone, hrw]
      have hmm : ∀ x ∈ db.routes, routeTotalCheckpoints db (some x.id) > 0 →
          x ∈ r :: rs := by
        intro x hx hcx
        rw [← hrw]
        exact (mem_routesWithCheckpoints db x).2 ⟨hx, hcx⟩
      have hchosen_mem : pyMinBy (fun x => teamsOnRoute db x.id) r rs ∈
          routesWithCheckpoints db := by
        rw [hrw]
        exact hspec.1
      have hcm := (mem_routesWithCheckpoints db _).1 hchosen_mem
      refine ⟨by rw [heq], pyMinBy (fun x => teamsOnRoute db x.id) r rs,
        by rw [heq], hcm.1, hcm.2, ?_, ?_⟩
      · intro x hx hcx
        exact hspec.2.1 x (hmm x hx hcx)
      · intro x hx hcx hkey
        exact hspec.2.2 x (hmm x hx hcx) hkey

/-- Second concrete route. -/
def routeB : Route := { id := 2, code := "B" }

/-- Checkpoint of route B. -/
def cpB1 : Checkpoint := { id := 20, route_id := 2, order_num := 1 }

/-- A team already bound to route A (the loaded route). -/
def teamOnRouteA : Team :=
  { id := 2, name := "Loaded", is_locked := true, route_id := some 1,
    current_order_num := 1, can_rename := false, started_at := none,
    finished_at := none }

/-- A team without a route binding. -/
def teamUnrouted : Team :=
  { id := 3, name := "Команда №3", is_locked := false, route_id := none,
    current_order_num := 1, can_rename := true, started_at := none,
    finished_at := none }

/-- Two-route fixture with uneven load: route A carries one team, route B
none; both have checkpoints. -/
def dbTwoRoutes : DB :=
  { users := [], teams := [teamOnRouteA, teamUnrouted], members := [],
    routes := [routeA, routeB], checkpoints := [cpA1, cpA2, cpB1],
    proofs := [], submissions := [] }

/-- C6 witness: on the uneven two-route fixture the unrouted team is bound
to route B, the route with the fewest bound teams. -/
theorem auto_assign_route_selection_witness :
    (autoAssignRouteIfNeeded dbTwoRoutes teamUnrouted).2 = true ∧
    ((autoAssignRouteIfNeeded dbTwoRoutes teamUnrouted).1).teams =
      updateTeamRow dbTwoRoutes.teams 3 { teamUnrouted with route_id := some 2 } := by
  have h := (auto_assign_route_selection dbTwoRoutes teamUnrouted
    (by decide)).2.2 (by decide) (by decide)
  refine ⟨h.1, ?_⟩
  obtain ⟨chosen, hteams, hmem, hcp, hmin, htie⟩ := h.2
  have hmem' : chosen = routeA ∨ chosen = routeB := by
    simpa [dbTwoRoutes] using hmem
  have hchosen : chosen = routeB := by
    rcases hmem' with h1 | h1
    · exfalso
      have h2 := hmin routeB (by decide) (by decide)
      rw [h1] at h2
      exact absurd h2 (by decide)
    · exact h1
  rw [hchosen] at hteams
  exact hteams

-- ========================= C7: next open team ===============================

/-- The number whose decimal digits are those of `n` appended to the digits
already accumulated in `acc`. -/
def pushDigits (acc n : Nat) : Nat :=
  if n / 10 = 0 then acc * 10 + n
  else pushDigits acc (n / 10) * 10 + n % 10
termination_by n
decreasing_by
  exact Nat.div_lt_self (by omega) (by omega)

/-- The decimal digit characters emitted by the runtime evaluate back to
their digit. -/
theorem digitChar_val (d : Nat) (hd : d < 10) :
    (Nat.digitChar d).toNat - 48 = d := by
  interval_cases d <;> rfl

/-- Folding the decimal-value accumulator over the digits emitted by
`Nat.toDigitsCore` pushes exactly the digits of `n`. -/
theorem toDigitsCore_val :
    ∀ (fuel n acc : Nat) (ds : List Char), n < 10 ^ fuel → 0 < fuel →
      (Nat.toDigitsCore 10 fuel n ds).foldl (fun a c => a * 10 + (c.toNat - 48)) acc
        = ds.foldl (fun a c => a * 10 + (c.toNat - 48)) (pushDigits acc n) := by
  intro fuel
  induction fuel with
  | zero => intro n acc ds _ hpos; omega
  | succ f ih =>
    intro n acc ds hfuel _
    have hstep : Nat.toDigitsCore 10 (f + 1) n ds =
        if n / 10 = 0 then Nat.digitChar (n % 10) :: ds
        else Nat.toDigitsCore 10 f (n / 10) (Nat.digitChar (n % 10) :: ds) := rfl
    have hdig : (Nat.digitChar (n % 10)).toNat - 48 = n % 10 :=
      digitChar_val (n % 10) (Nat.mod_lt n (by omega))
    by_cases h0 : n / 10 = 0
    · rw [hstep, if_pos h0]
      have hn10 : n < 10 := by omega
      have hpush : pushDigits acc n = acc * 10 + n := by
        unfold pushDigits
        rw [if_pos h0]
      rw [List.foldl_cons, hdig, hpush]
      have hmod : n % 10 = n := Nat.mod_eq_of_lt hn10
      rw [hmod]
    · rw [hstep, if_neg h0]
      have hfuel' : n / 10 < 10 ^ f := by
        rw [Nat.div_lt_iff_lt_mul (by omega)]
        calc n < 10 ^ (f + 1) := hfuel
        _ = 10 ^ f * 10 := by rw [Nat.pow_succ]
      have hposf : 0 < f := by
        by_contra hf
        have hf0 : f = 0 := by omega
        rw [hf0] at hfuel'
        simp at hfuel'
        omega
      rw [ih (n / 10) acc (Nat.digitChar (n % 10) :: ds) hfuel' hposf]
      rw [List.foldl_cons, hdig]
      have hpush : pushDigits acc n = pushDigits acc (n / 10) * 10 + n % 10 := by
        conv_lhs => rw [pushDigits]
        rw [if_neg h0]
      rw [hpush]

/-- Pushing the digits of `n` onto an empty accumulator recovers `n`. -/
theorem pushDigits_zero : ∀ n : Nat, pushDigits 0 n = n := by
  intro n
  induction n using Nat.strong_induction_on with
  | _ n ih =>
    unfold pushDigits
    by_cases h : n / 10 = 0
    · rw [if_pos h]
      omega
    · rw [if_neg h]
      rw [ih (n / 10) (Nat.div_lt_self (by omega) (by omega))]
      omega

/-- The decimal value of the digit string of `n` is `n`. -/
theorem toDigits_val (n : Nat) :
    (Nat.toDigits 10 n).foldl (fun a c => a * 10 + (c.toNat - 48)) 0 = n := by
  unfold Nat.toDigits
  rw [toDigitsCore_val (n + 1) n 0 [] ?_ (by omega)]
  · exact pushDigits_zero n
  · calc n < 10 ^ n := Nat.lt_pow_self (by omega) n
    _ ≤ 10 ^ (n + 1) := Nat.pow_le_pow_right (by omega) (by omega)

/-- Decimal rendering of naturals is injective. -/
theorem natRepr_injective (a b : Nat) (h : Nat.repr a = Nat.repr b) : a = b := by
  have hl : Nat.toDigits 10 a = Nat.toDigits 10 b := by
    have hdata := congrArg String.data h
    simpa [Nat.repr, List.asString] using hdata
  have ha := toDigits_val a
  have hb := toDigits_val b
  rw [hl, hb] at ha
  exact ha.symm

/-- The default team names are pairwise distinct across suffixes. -/
theorem defaultTeamName_injective (a b : Nat)
    (h : defaultTeamName a = defaultTeamName b) : a = b := by
  unfold defaultTeamName at h
  have hdata := congrArg String.data h
  simp only [String.data_append] at hdata
  have htail := List.append_cancel_left hdata
  exact natRepr_injective a b (String.ext htail)

/-- The suffix scan never goes below its starting point. -/
theorem findFreeSuffix_ge (names : List String) :
    ∀ (fuel n : Nat), n ≤ findFreeSuffix names n fuel := by
  intro fuel
  induction fuel with
  | zero => intro n; exact Nat.le_refl n
  | succ f ih =>
    intro n
    show n ≤ (if names.contains (defaultTeamName n) then
      findFreeSuffix names (n + 1) f else n)
    by_cases h : names.contains (defaultTeamName n)
    · rw [if_pos h]
      exact Nat.le_trans (Nat.le_succ n) (ih (n + 1))
    · rw [if_neg h]

/-- Every suffix the scan skips is taken. -/
theorem findFreeSuffix_taken_below (names : List String) :
    ∀ (fuel n j : Nat), n ≤ j → j < findFreeSuffix names n fuel →
      names.contains (defaultTeamName j) = true := by
  intro fuel
  induction fuel with
  | zero =>
    intro n j hnj hj
    rw [show findFreeSuffix names n 0 = n from rfl] at hj
    omega
  | succ f ih =>
    intro n j hnj hj
    rw [show findFreeSuffix names n (f + 1) =
      (if names.contains (defaultTeamName n) then findFreeSuffix names (n + 1) f
       else n) from rfl] at hj
    by_cases h : names.contains (defaultTeamName n)
    · rw [if_pos h] at hj
      rcases Nat.eq_or_lt_of_le hnj with heq | hlt
      · rw [← heq]
        exact h
      · exact ih (n + 1) j hlt hj
    · rw [if_neg h] at hj
      exact absurd hj (by omega)

/-- If the scan result is itself taken, the fuel was exhausted. -/
theorem findFreeSuffix_exhaust (names : List String) :
    ∀ (fuel n : Nat),
      names.contains (defaultTeamName (findFreeSuffix names n fuel)) = true →
      findFreeSuffix names n fuel = n + fuel := by
  intro fuel
  induction fuel with
  | zero => intro n _; rfl
  | succ f ih =>
    intro n htaken
    rw [show findFreeSuffix names n (f + 1) =
      (if names.contains (defaultTeamName n) then findFreeSuffix names (n + 1) f
       else n) from rfl] at htaken ⊢
    by_cases h : names.contains (defaultTeamName n)
    · rw [if_pos h] at htaken ⊢
      rw [ih (n + 1) htaken]
      omega
    · rw [if_neg h] at htaken
      exact absurd htaken h

/-- With `names.length + 1` steps of fuel the scan always lands on a free
suffix: were the result taken, all `names.length + 1` scanned suffixes would
be taken, and by injectivity of the default names that many distinct strings
cannot fit in `names`. -/
theorem findFreeSuffix_not_taken (names : List String) (n : Nat) :
    names.contains
      (defaultTeamName (findFreeSuffix names n (names.length + 1))) = false := by
  by_contra hcon
  rw [Bool.not_eq_false] at hcon
  have hex := findFreeSuffix_exhaust names (names.length + 1) n hcon
  have htaken : ∀ j, n ≤ j → j ≤ n + names.length →
      names.contains (defaultTeamName j) = true := by
    intro j h1 h2
    exact findFreeSuffix_taken_below names (names.length + 1) n j h1 (by omega)
  have hsub : ((List.range (names.length + 1)).map
      (fun i => defaultTeamName (n + i))) ⊆ names := by
    intro s hs
    obtain ⟨i, hi, hseq⟩ := List.mem_map.1 hs
    rw [List.mem_range] at hi
    have hc := htaken (n + i) (by omega) (by omega)
    rw [← hseq]
    have := List.contains_iff_exists_mem_beq.1 hc
    obtain ⟨a, ha, hab⟩ := this
    rw [show defaultTeamName (n + i) = a from by
      have := eq_of_beq hab
      exact this] at hseq ⊢
    exact ha
  have hnd : ((List.range (names.length + 1)).map
      (fun i => defaultTeamName (n + i))).Nodup := by
    refine List.Nodup.map ?_ (List.nodup_range _)
    intro a b hab
    have := defaultTeamName_injective (n + a) (n + b) hab
    omega
  have hsp := List.subperm_of_subset hnd hsub
  have hlen := hsp.length_le
  rw [List.length_map, List.length_range] at hlen
  omega

/-- Membership in the open-team candidate scan. -/
theorem mem_openCands (db : DB) (t : Team) :
    t ∈ (List.insertionSort teamLe db.teams).filter (fun x => !x.is_locked) ↔
      t ∈ db.teams ∧ t.is_locked = false := by
  rw [List.mem_filter, (List.perm_insertionSort teamLe db.teams).mem_iff]
  simp

/-- The open-team candidate scan is strictly ascending in id when team ids
are unique. -/
theorem openCands_strict_sorted (db : DB)
    (hnd : (db.teams.map (fun t => t.id)).Nodup) :
    ((List.insertionSort teamLe db.teams).filter (fun x => !x.is_locked)).Pairwise
      (fun a b => a.id < b.id) := by
  have hsorted : (List.insertionSort teamLe db.teams).Pairwise teamLe :=
    List.sorted_insertionSort teamLe db.teams
  have hperm : List.Perm ((List.insertionSort teamLe db.teams).map (fun t => t.id))
      (db.teams.map (fun t => t.id)) :=
    List.Perm.map (fun t => t.id) (List.perm_insertionSort teamLe db.teams)
  have hnd2 : ((List.insertionSort teamLe db.teams).map (fun t => t.id)).Nodup :=
    hperm.nodup_iff.2 hnd
  have hne : (List.insertionSort teamLe db.teams).Pairwise
      (fun a b => a.id ≠ b.id) := List.pairwise_map.1 hnd2
  have hstrict : (List.insertionSort teamLe db.teams).Pairwise
      (fun a b => a.id < b.id) := by
    refine (hsorted.and hne).imp ?_
    intro a b hab
    exact lt_of_le_of_ne hab.1 hab.2
  exact hstrict.sublist (List.filter_sublist _)

/-- `find?` over a strictly id-ascending list returns the matching element
of least id. -/
theorem find?_sorted_min (p : Team → Bool) :
    ∀ (l : List Team), l.Pairwise (fun a b => a.id < b.id) →
      ∀ t, l.find? p = some t → ∀ y ∈ l, p y = true → t.id ≤ y.id := by
  intro l
  induction l with
  | nil =>
    intro _ t ht
    simp at ht
  | cons a l ih =>
    intro hp t ht y hy hpy
    by_cases hpa : p a = true
    · rw [List.find?_cons_of_pos _ hpa] at ht
      injection ht with ht
      subst ht
      rcases List.mem_cons.1 hy with h1 | h2
      · rw [h1]
      · exact Nat.le_of_lt ((List.pairwise_cons.1 hp).1 y h2)
    · rw [List.find?_cons_of_neg _ hpa] at ht
      rcases List.mem_cons.1 hy with h1 | h2
      · rw [h1] at hpy
        exact absurd hpy hpa
      · exact ih (List.pairwise_cons.1 hp).2 t ht y h2 hpy

/-- C7 (amended): `nextOpenTeam` returns the lowest-id unlocked team whose
member count is below capacity, leaving the database unchanged; when no such
team exists it appends one fresh unlocked team named "Команда №k" where `k`
is the smallest suffix not already in use among existing team names at or
above `count(teams) + 1` — the scan starts at the team count plus one, not
at 1, so smaller unused suffixes may be skipped. -/
theorem next_open_team_spec (db : DB) (sz : Nat)
    (hnd : (db.teams.map (fun t => t.id)).Nodup) :
    (∀ t0 ∈ db.teams, t0.is_locked = false → teamMemberCount db t0.id < sz →
      (nextOpenTeam db sz).1 = db ∧
      (nextOpenTeam db sz).2 ∈ db.teams ∧
      (nextOpenTeam db sz).2.is_locked = false ∧
      teamMemberCount db (nextOpenTeam db sz).2.id < sz ∧
      (∀ t' ∈ db.teams, t'.is_locked = false → teamMemberCount db t'.id < sz →
        (nextOpenTeam db sz).2.id ≤ t'.id)) ∧
    ((∀ t0 ∈ db.teams, t0.is_locked = false → ¬ teamMemberCount db t0.id < sz) →
      (nextOpenTeam db sz).1 = { db with teams := db.teams ++ [(nextOpenTeam db sz).2] } ∧
      (nextOpenTeam db sz).2.name = defaultTeamName (findFreeSuffix (db.teams.map (fun t => t.name)) (db.teams.length + 1) (db.teams.length + 1)) ∧
      db.teams.length + 1 ≤ findFreeSuffix (db.teams.map (fun t => t.name)) (db.teams.length + 1) (db.teams.length + 1) ∧
      (db.teams.map (fun t => t.name)).contains (defaultTeamName (findFreeSuffix (db.teams.map (fun t => t.name)) (db.teams.length + 1) (db.teams.length + 1))) = false ∧
      (∀ j, db.teams.length + 1 ≤ j →
        j < findFreeSuffix (db.teams.map (fun t => t.name)) (db.teams.length + 1) (db.teams.length + 1) →
        (db.teams.map (fun t => t.name)).contains (defaultTeamName j) = true)) := by
  constructor
  · intro t0 ht0 hlock hcnt
    have ht0c : t0 ∈ (List.insertionSort teamLe db.teams).filter
        (fun x => !x.is_locked) := (mem_openCands db t0).2 ⟨ht0, hlock⟩
    have hsome : (((List.insertionSort teamLe db.teams).filter
        (fun x => !x.is_locked)).find?
          (fun t => teamMemberCount db t.id < sz)).isSome := by
      rw [List.find?_isSome]
      exact ⟨t0, ht0c, by simpa using hcnt⟩
    obtain ⟨t, hteq⟩ := Option.isSome_iff_exists.1 hsome
    have heq : nextOpenTeam db sz = (db, t) := by
      unfold nextOpenTeam
      simp only [hteq]
    have htmem := (mem_openCands db t).1 (List.mem_of_find?_eq_some hteq)
    have htp : teamMemberCount db t.id < sz := by
      have := List.find?_some hteq
      simpa using this
    refine ⟨by rw [heq], by rw [heq]; exact htmem.1, by rw [heq]; exact htmem.2,
      by rw [heq]; exact htp, ?_⟩
    intro t' ht' hlock' hcnt'
    rw [heq]
    exact find?_sorted_min (fun t => teamMemberCount db t.id < sz) _
      (openCands_strict_sorted db hnd) t hteq t'
      ((mem_openCands db t').2 ⟨ht', hlock'⟩) (by simpa using hcnt')
  · intro hno
    have hnone : (((List.insertionSort teamLe db.teams).filter
        (fun x => !x.is_locked)).find?
          (fun t => teamMemberCount db t.id < sz)) = none := by
      rw [List.find?_eq_none]
      intro x hx
      have hxm := (mem_openCands db x).1 hx
      have := hno x hxm.1 hxm.2
      simpa using this
    have heq : nextOpenTeam db sz = ({ db with teams := db.teams ++ [{ id := nextTeamId db.teams, name := defaultTeamName (findFreeSuffix (db.teams.map (fun t => t.name)) (db.teams.length + 1) (db.teams.length + 1)), is_locked := false, route_id := none, current_order_num := 1, can_rename := true, started_at := none, finished_at := none }] }, { id := nextTeamId db.teams, name := defaultTeamName (findFreeSuffix (db.teams.map (fun t => t.name)) (db.teams.length + 1) (db.teams.length + 1)), is_locked := false, route_id := none, current_order_num := 1, can_rename := true, started_at := none, finished_at := none }) := by
      unfold nextOpenTeam
      simp only [hnone]
    have hlen : (db.teams.map (fun t => t.name)).length = db.teams.length :=
      List.length_map _ _
    refine ⟨by rw [heq], by rw [heq], ?_, ?_, ?_⟩
    · exact findFreeSuffix_ge (db.teams.map (fun t => t.name)) _ _
    · have := findFreeSuffix_not_taken (db.teams.map (fun t => t.name))
        (db.teams.length + 1)
      rw [hlen] at this
      exact this
    · intro j hj1 hj2
      exact findFreeSuffix_taken_below (db.teams.map (fun t => t.name))
        (db.teams.length + 1) (db.teams.length + 1) j hj1 hj2

/-- A single locked team whose name carries suffix 5. -/
def teamNo5 : Team :=
  { id := 5, name := "Команда №5", is_locked := true, route_id := none,
    current_order_num := 1, can_rename := true, started_at := none,
    finished_at := none }

/-- Database with only the locked team "Команда №5". -/
def dbLockedFive : DB :=
  { users := [], teams := [teamNo5], members := [], routes := [],
    checkpoints := [], proofs := [], submissions := [] }

/-- C7 counterexample: with a single locked team named "Команда №5" the
creation path scans from `count(teams) + 1 = 2` and creates "Команда №2",
although the smallest suffix not in use among existing names is 1 — so the
created suffix is not the smallest unused one. -/
theorem next_open_team_counterexample :
    (nextOpenTeam dbLockedFive 7).2.name = "Команда №2" ∧
    (dbLockedFive.teams.map (fun t => t.name)).contains (defaultTeamName 1) = false ∧
    (nextOpenTeam dbLockedFive 7).2.name ≠ defaultTeamName 1 := by
  refine ⟨by decide, by decide, by decide⟩

/-- C7 witness: on the same concrete state the amended description holds —
the created name is the default name of the first free suffix at or above
`count + 1 = 2`, that suffix is at least 2 and unused. -/
theorem next_open_team_spec_witness :
    (nextOpenTeam dbLockedFive 7).2.name = defaultTeamName (findFreeSuffix (dbLockedFive.teams.map (fun t => t.name)) 2 2) ∧
    2 ≤ findFreeSuffix (dbLockedFive.teams.map (fun t => t.name)) 2 2 ∧
    (dbLockedFive.teams.map (fun t => t.name)).contains (defaultTeamName (findFreeSuffix (dbLockedFive.teams.map (fun t => t.name)) 2 2)) = false := by
  have h := (next_open_team_spec dbLockedFive 7 (by decide)).2 (by decide)
  exact ⟨h.2.1, h.2.2.1, h.2.2.2.1⟩
